import Mathlib

/-!
Verification development for the Biscuit-style authorization verifier
(`src/token/verifier.rs`).

The verifier orchestration (`Verifier`, `verify_with_limits`, the builder
helpers exposed on `Verifier`) is translated from `src/token/verifier.rs`.
The collaborating modules it uses (the `datalog` engine with its symbol
table, fact/rule model, expression evaluator and bounded fixed-point run,
the `builder` AST layer, and the `Biscuit` token type) are not part of the
provided sources; those definitions are modelled from the specification
(sections 3, 4.1-4.5 and 6) and are marked `Modelled from the spec:` in
their doc comments.

Wall-clock time (`Instant::now()` in the source) is modelled by an explicit
clock oracle `clock : Nat -> Nat` giving the reading of the k-th call to
`now`, threaded through evaluation by a tick counter.
-/

namespace Biscuit

/-! ## Symbol table -/

/-- Modelled from the spec: `datalog::SymbolTable` (section 3, 4.1), an
append-only ordered sequence of strings; the ID of a string is its index. -/
structure SymbolTable where
  symbols : List String
deriving DecidableEq

/-- Modelled from the spec: `SymbolTable::get`, lookup of a string's ID. -/
def SymbolTable.get (t : SymbolTable) (s : String) : Option Nat :=
  t.symbols.indexOf? s

/-- Modelled from the spec: `SymbolTable::insert` interns a string, returning
the updated table and the string's ID (existing strings keep their ID). -/
def SymbolTable.insert (t : SymbolTable) (s : String) : SymbolTable × Nat :=
  match t.symbols.indexOf? s with
  | some i => (t, i)
  | none => (⟨t.symbols ++ [s]⟩, t.symbols.length)

/-- Modelled from the spec: lookup of an ID's string (section 4.1); an
out-of-range ID yields the empty string. -/
def SymbolTable.lookup (t : SymbolTable) (i : Nat) : String :=
  t.symbols.getD i ""

/-- Modelled from the spec: `token::default_symbol_table`, which holds
exactly the reserved symbols (section 3). -/
def defaultSymbolTable : SymbolTable :=
  ⟨["authority", "ambient", "resource", "operation", "time", "revocation_id"]⟩

/-- Table `t'` extends `t` by appending entries: every pre-existing entry keeps its
index (ID) and string. -/
def SymbolTable.ExtensionOf (t' t : SymbolTable) : Prop :=
  ∃ l, t'.symbols = t.symbols ++ l

/-! ## Datalog term and fact model (spec section 3) -/

/-- Modelled from the spec: a non-Variable, non-Set term value, as may appear
inside a `Set` (section 3: "Sets are unordered, duplicate-free, homogeneous"
sets of non-Set, non-Variable terms). Strings are interned symbol IDs. -/
inductive Atom where
  | integer : Int → Atom
  | str : Nat → Atom
  | date : Nat → Atom
  | bytes : List Nat → Atom
  | bool : Bool → Atom
deriving DecidableEq

/-- Modelled from the spec: a datalog term (`datalog::ID`), section 3.
Variables and strings carry symbol-table IDs. Sets are modelled as lists of
atoms (the source uses an ordered set; no claim depends on set ordering or
deduplication). -/
inductive ID where
  | var : Nat → ID
  | integer : Int → ID
  | str : Nat → ID
  | date : Nat → ID
  | bytes : List Nat → ID
  | bool : Bool → ID
  | set : List Atom → ID
deriving DecidableEq

/-- View of an atom as a term. -/
def Atom.toID : Atom → ID
  | .integer i => .integer i
  | .str s => .str s
  | .date d => .date d
  | .bytes b => .bytes b
  | .bool b => .bool b

/-- Inverse view: the atom underlying a term, when it is neither a variable
nor a set. -/
def ID.toAtom : ID → Option Atom
  | .integer i => some (.integer i)
  | .str s => some (.str s)
  | .date d => some (.date d)
  | .bytes b => some (.bytes b)
  | .bool b => some (.bool b)
  | _ => none

/-- Modelled from the spec: `datalog::Predicate`, a name ID plus an ordered
sequence of terms possibly containing variables (section 3). -/
structure Predicate where
  name : Nat
  ids : List ID
deriving DecidableEq

/-- Modelled from the spec: `datalog::Fact`, a predicate whose terms contain
no variables (section 3); structurally a predicate. -/
abbrev Fact := Predicate

/-- Modelled from the spec: unary opcode kinds (section 4.2). -/
inductive UnaryOp where
  | negate
  | parens
  | length
deriving DecidableEq

/-- Modelled from the spec: binary opcode kinds (section 4.2). The string
pattern operators (head/tail-of-string match and regular-expression match)
are omitted from the model: no claim involves them, and the regular
expression engine is outside the provided sources. -/
inductive BinaryOp where
  | lessThan
  | greaterThan
  | lessOrEqual
  | greaterOrEqual
  | equal
  | contains
  | add
  | sub
  | mul
  | div
  | and
  | or
  | intersection
  | union
deriving DecidableEq

/-- Modelled from the spec: one opcode of a post-order expression
(section 3): a value push, a unary op, or a binary op. -/
inductive ExOp where
  | value : ID → ExOp
  | unary : UnaryOp → ExOp
  | binary : BinaryOp → ExOp
deriving DecidableEq

/-- Modelled from the spec: `datalog::Expression`, a post-order opcode
sequence (section 3). -/
structure Expression where
  ops : List ExOp
deriving DecidableEq

/-- Modelled from the spec: `datalog::Rule` (section 3). -/
structure Rule where
  head : Predicate
  body : List Predicate
  expressions : List Expression
deriving DecidableEq

/-- Modelled from the spec: `datalog::Check`, an ordered sequence of queries
(section 3); each query is a rule whose head is irrelevant. -/
structure Check where
  queries : List Rule
deriving DecidableEq

/-! ## Expression evaluator (spec section 4.2) -/

/-- A variable binding, mapping variable IDs to ground terms. -/
abbrev Binding := List (Nat × ID)

/-- Signed 64-bit integer range check, for the checked arithmetic of the
source (`i64` overflow fails the expression). -/
def fitsI64 (i : Int) : Bool :=
  decide (-(2 ^ 63) ≤ i) && decide (i < 2 ^ 63)

/-- Modelled from the spec: unary opcode evaluation (section 4.2). `length`
is supported on byte sequences and sets; the length of an interned string is
not recoverable from its symbol ID in this model (no claim involves it). -/
def evalUnary : UnaryOp → ID → Option ID
  | .negate, .bool b => some (.bool (!b))
  | .parens, x => some x
  | .length, .bytes b => some (.integer b.length)
  | .length, .set l => some (.integer l.length)
  | _, _ => none

/-- Same-constructor test used for `equal` (spec: `Equal` applies to two
same-typed non-Set values). -/
def Atom.sameType : Atom → Atom → Bool
  | .integer _, .integer _ => true
  | .str _, .str _ => true
  | .date _, .date _ => true
  | .bytes _, .bytes _ => true
  | .bool _, .bool _ => true
  | _, _ => false

/-- Modelled from the spec: binary opcode evaluation (section 4.2); `x` is
the left operand (popped second), `y` the right one. Type mismatches yield
`none`, failing the expression. -/
def evalBinary : BinaryOp → ID → ID → Option ID
  | .lessThan, .integer a, .integer b => some (.bool (a < b))
  | .lessThan, .date a, .date b => some (.bool (a < b))
  | .greaterThan, .integer a, .integer b => some (.bool (a > b))
  | .greaterThan, .date a, .date b => some (.bool (a > b))
  | .lessOrEqual, .integer a, .integer b => some (.bool (a ≤ b))
  | .lessOrEqual, .date a, .date b => some (.bool (a ≤ b))
  | .greaterOrEqual, .integer a, .integer b => some (.bool (a ≥ b))
  | .greaterOrEqual, .date a, .date b => some (.bool (a ≥ b))
  | .equal, x, y =>
    match x.toAtom, y.toAtom with
    | some a, some b => if a.sameType b then some (.bool (a = b)) else none
    | _, _ => none
  | .contains, .set l, y =>
    match y.toAtom with
    | some a => some (.bool (a ∈ l))
    | none => none
  | .add, .integer a, .integer b =>
    if fitsI64 (a + b) then some (.integer (a + b)) else none
  | .sub, .integer a, .integer b =>
    if fitsI64 (a - b) then some (.integer (a - b)) else none
  | .mul, .integer a, .integer b =>
    if fitsI64 (a * b) then some (.integer (a * b)) else none
  | .div, .integer a, .integer b =>
    if b = 0 then none
    else if fitsI64 (Int.tdiv a b) then some (.integer (Int.tdiv a b)) else none
  | .and, .bool a, .bool b => some (.bool (a && b))
  | .or, .bool a, .bool b => some (.bool (a || b))
  | .intersection, .set a, .set b => some (.set (a.filter (· ∈ b)))
  | .union, .set a, .set b => some (.set (a ++ b.filter (· ∉ a)))
  | _, _, _ => none

/-- Modelled from the spec: the postfix stack machine (section 4.2). Value
opcodes resolve variables through the binding (an unresolved variable fails
evaluation); binary opcodes pop the right operand first. -/
def evalOps (b : Binding) : List ExOp → List ID → Option ID
  | [], [x] => some x
  | [], _ => none
  | .value t :: rest, stack =>
    match t with
    | .var v =>
      match List.lookup v b with
      | some x => evalOps b rest (x :: stack)
      | none => none
    | x => evalOps b rest (x :: stack)
  | .unary k :: rest, x :: stack =>
    match evalUnary k x with
    | some r => evalOps b rest (r :: stack)
    | none => none
  | .unary _ :: _, [] => none
  | .binary k :: rest, y :: x :: stack =>
    match evalBinary k x y with
    | some r => evalOps b rest (r :: stack)
    | none => none
  | .binary _ :: _, _ => none

/-- Modelled from the spec: evaluating an expression over a binding must
leave a single value on the stack. -/
def Expression.eval (e : Expression) (b : Binding) : Option ID :=
  evalOps b e.ops []

/-- Modelled from the spec: an expression holds when it evaluates to the
Boolean `true`; any other outcome (including type errors) counts as "does
not hold" (section 4.2). -/
def Expression.holds (e : Expression) (b : Binding) : Bool :=
  match e.eval b with
  | some (.bool true) => true
  | _ => false

/-! ## Rule matcher (spec section 4.3) -/

/-- Modelled from the spec: unify one pattern term against one ground term
under a binding (section 4.3): a variable binds, or must equal its prior
binding; any other term must be structurally equal. -/
def unifyID (b : Binding) (pat x : ID) : Option Binding :=
  match pat with
  | .var v =>
    match List.lookup v b with
    | some y => if y = x then some b else none
    | none => some ((v, x) :: b)
  | _ => if pat = x then some b else none

/-- Modelled from the spec: unify two ordered term tuples position by
position (section 4.3, "unifying term-by-term"); tuples of different arity
do not unify. -/
def unifyLists (b : Binding) : List ID → List ID → Option Binding
  | [], [] => some b
  | p :: ps, x :: xs =>
    match unifyID b p x with
    | some b' => unifyLists b' ps xs
    | none => none
  | _, _ => none

/-- Modelled from the spec: unify a body predicate against a fact
(section 4.3): predicate IDs must match, then the term tuples unify. -/
def matchPred (b : Binding) (p : Predicate) (f : Fact) : Option Binding :=
  if p.name = f.name then unifyLists b p.ids f.ids else none

/-- Modelled from the spec: fold a rule body left to right, combining every
partial binding with every fact compatible with the next body predicate
(section 4.3). -/
def bodyBindings (facts : List Fact) : List Predicate → List Binding → List Binding
  | [], bs => bs
  | p :: ps, bs =>
    bodyBindings facts ps (bs.flatMap fun b => facts.filterMap fun f => matchPred b p f)

/-- Modelled from the spec: the bindings surviving both body unification and
the rule's constraint expressions (section 4.3). -/
def ruleBindings (facts : List Fact) (r : Rule) : List Binding :=
  (bodyBindings facts r.body [[]]).filter fun b => r.expressions.all fun e => e.holds b

/-- Modelled from the spec: `World::query_match` — true iff at least one
binding survives (section 4.3). -/
def queryMatch (facts : List Fact) (r : Rule) : Bool :=
  !(ruleBindings facts r).isEmpty

/-- Substitute a binding into a term; an unbound variable is left in place. -/
def substituteID (b : Binding) : ID → ID
  | .var v =>
    match List.lookup v b with
    | some x => x
    | none => .var v
  | x => x

/-- Instantiate a rule head under a binding. -/
def instantiateHead (b : Binding) (p : Predicate) : Fact :=
  ⟨p.name, p.ids.map (substituteID b)⟩

/-- Set-semantics insertion into the fact store (the source keeps facts in a
hash set; the model determinizes the enumeration order, on which no claim
depends). -/
def insertFact (fs : List Fact) (f : Fact) : List Fact :=
  if f ∈ fs then fs else fs ++ [f]

/-- Insert several facts in order, with set semantics. -/
def insertFacts (fs : List Fact) (l : List Fact) : List Fact :=
  l.foldl insertFact fs

/-- Modelled from the spec: `World::query_rule` — the instantiated heads of
the surviving bindings, deduplicated (section 4.3). -/
def queryRule (facts : List Fact) (r : Rule) : List Fact :=
  (ruleBindings facts r).foldl (fun acc b => insertFact acc (instantiateHead b r.head)) []

/-! ## Bounded fixed-point run (spec section 4.4) -/

/-- Modelled from the spec: the resource-exhaustion errors of `World::run`
(section 4.4, 7). -/
inductive RunError where
  | tooManyFacts
  | tooManyIterations
  | timeout
deriving DecidableEq

/-- Modelled from the spec: `datalog::RunLimits` (section 5). Time is in
abstract clock units. -/
structure RunLimits where
  max_facts : Nat
  max_iterations : Nat
  max_time : Nat
deriving DecidableEq

/-- Modelled from the spec: the default run limits (section 5: 1000 facts,
100 iterations, 1 ms — one millisecond is taken as 1000000 clock units). -/
def RunLimits.default : RunLimits :=
  ⟨1000, 100, 1000000⟩

/-- One full sweep over all rules: apply every rule to the current facts and
insert the produced facts with set semantics. -/
def worldStep (rules : List Rule) (facts : List Fact) : List Fact :=
  rules.foldl (fun acc r => insertFacts acc (queryRule facts r)) facts

/-- Modelled from the spec: the bounded fixed-point loop of `World::run`
(section 4.4). The fuel is `max_iterations`; a pass that produces no new
facts reaches the fixed point; exceeding `max_facts` after a productive pass
halts with `tooManyFacts` (the source checks at each insertion, the model at
each pass boundary; no claim distinguishes the two). The wall-clock timeout
of `run` is outside this model (the orchestrator's own deadline checks are
modelled, in `Verifier.verify_with_limits`). -/
def worldRunAux (maxFacts : Nat) (rules : List Rule) : Nat → List Fact → Except RunError (List Fact)
  | fuel, facts =>
    let fs' := worldStep rules facts
    if fs'.length = facts.length then .ok facts
    else
      match fuel with
      | 0 => .error .tooManyIterations
      | fuel' + 1 =>
        if maxFacts < fs'.length then .error .tooManyFacts
        else worldRunAux maxFacts rules fuel' fs'

/-- Modelled from the spec: `World::run_with_limits` (section 4.4). -/
def worldRun (limits : RunLimits) (facts : List Fact) (rules : List Rule) :
    Except RunError (List Fact) :=
  worldRunAux limits.max_facts rules limits.max_iterations facts

/-! ## Builder layer (spec sections 3 and 6)

The `token::builder` module is not part of the provided sources; its AST
mirrors the datalog model with strings in place of interned symbol IDs, and
`convert` interns those strings into a symbol table. -/

namespace builder

/-- Modelled from the spec: a non-Set, non-Variable builder term. -/
inductive Atom where
  | integer : Int → Atom
  | str : String → Atom
  | date : Nat → Atom
  | bytes : List Nat → Atom
  | bool : Bool → Atom
deriving DecidableEq

/-- Modelled from the spec: a builder-level term, with strings not yet
interned. -/
inductive Term where
  | var : String → Term
  | integer : Int → Term
  | str : String → Term
  | date : Nat → Term
  | bytes : List Nat → Term
  | bool : Bool → Term
  | set : List Atom → Term
deriving DecidableEq

/-- Modelled from the spec: a builder-level predicate. -/
structure Predicate where
  name : String
  ids : List Term
deriving DecidableEq

/-- Modelled from the spec: a builder-level fact; structurally a predicate
with no variables. -/
abbrev Fact := Predicate

/-- Modelled from the spec: a builder-level opcode. -/
inductive Op where
  | value : Term → Op
  | unary : UnaryOp → Op
  | binary : BinaryOp → Op
deriving DecidableEq

/-- Modelled from the spec: a builder-level expression. -/
structure Expression where
  ops : List Op
deriving DecidableEq

/-- Modelled from the spec: a builder-level rule. -/
structure Rule where
  head : Predicate
  body : List Predicate
  expressions : List Expression
deriving DecidableEq

/-- Modelled from the spec: a builder-level check: an ordered sequence of
queries (section 3). -/
structure Check where
  queries : List Rule
deriving DecidableEq

/-- Modelled from the spec: the policy kind (section 3). -/
inductive PolicyKind where
  | allow
  | deny
deriving DecidableEq

/-- Modelled from the spec: a policy, a kind plus a disjunction of queries
(section 3). -/
structure Policy where
  queries : List Rule
  kind : PolicyKind
deriving DecidableEq

/-- Modelled from the spec: interning conversion of a set element. -/
def Atom.convert : Atom → SymbolTable → SymbolTable × Biscuit.Atom
  | .integer i, s => (s, .integer i)
  | .str x, s =>
    let (s', id) := s.insert x
    (s', .str id)
  | .date d, s => (s, .date d)
  | .bytes b, s => (s, .bytes b)
  | .bool b, s => (s, .bool b)

/-- Interning conversion of a list of set elements, left to right. -/
def convertAtoms : List Atom → SymbolTable → SymbolTable × List Biscuit.Atom
  | [], s => (s, [])
  | a :: as_, s =>
    let (s1, a') := a.convert s
    let (s2, as') := convertAtoms as_ s1
    (s2, a' :: as')

/-- Modelled from the spec: interning conversion of a builder term into a
datalog term — variables and strings are interned (section 3, 9). -/
def Term.convert : Term → SymbolTable → SymbolTable × ID
  | .var x, s =>
    let (s', id) := s.insert x
    (s', .var id)
  | .integer i, s => (s, .integer i)
  | .str x, s =>
    let (s', id) := s.insert x
    (s', .str id)
  | .date d, s => (s, .date d)
  | .bytes b, s => (s, .bytes b)
  | .bool b, s => (s, .bool b)
  | .set l, s =>
    let (s', l') := convertAtoms l s
    (s', .set l')

/-- Interning conversion of a list of terms, left to right. -/
def convertTerms : List Term → SymbolTable → SymbolTable × List ID
  | [], s => (s, [])
  | t :: ts, s =>
    let (s1, i) := t.convert s
    let (s2, is) := convertTerms ts s1
    (s2, i :: is)

/-- Modelled from the spec: interning conversion of a predicate — its name,
then its terms. -/
def Predicate.convert (p : Predicate) (s : SymbolTable) : SymbolTable × Biscuit.Predicate :=
  let (s1, n) := s.insert p.name
  let (s2, ids) := convertTerms p.ids s1
  (s2, ⟨n, ids⟩)

/-- Modelled from the spec: interning conversion of a fact. -/
def Fact.convert (f : Fact) (s : SymbolTable) : SymbolTable × Biscuit.Fact :=
  Predicate.convert f s

/-- Modelled from the spec: interning conversion of an opcode. -/
def Op.convert : Op → SymbolTable → SymbolTable × ExOp
  | .value t, s =>
    let (s', t') := t.convert s
    (s', .value t')
  | .unary k, s => (s, .unary k)
  | .binary k, s => (s, .binary k)

/-- Interning conversion of a list of opcodes, left to right. -/
def convertOps : List Op → SymbolTable → SymbolTable × List ExOp
  | [], s => (s, [])
  | o :: os, s =>
    let (s1, o') := o.convert s
    let (s2, os') := convertOps os s1
    (s2, o' :: os')

/-- Modelled from the spec: interning conversion of an expression. -/
def Expression.convert (e : Expression) (s : SymbolTable) : SymbolTable × Biscuit.Expression :=
  let (s', ops) := convertOps e.ops s
  (s', ⟨ops⟩)

/-- Interning conversion of a list of predicates, left to right. -/
def convertPreds : List Predicate → SymbolTable → SymbolTable × List Biscuit.Predicate
  | [], s => (s, [])
  | p :: ps, s =>
    let (s1, p') := p.convert s
    let (s2, ps') := convertPreds ps s1
    (s2, p' :: ps')

/-- Interning conversion of a list of expressions, left to right. -/
def convertExprs : List Expression → SymbolTable → SymbolTable × List Biscuit.Expression
  | [], s => (s, [])
  | e :: es, s =>
    let (s1, e') := e.convert s
    let (s2, es') := convertExprs es s1
    (s2, e' :: es')

/-- Modelled from the spec: interning conversion of a rule — head, body,
then expressions. -/
def Rule.convert (r : Rule) (s : SymbolTable) : SymbolTable × Biscuit.Rule :=
  let (s1, h) := r.head.convert s
  let (s2, b) := convertPreds r.body s1
  let (s3, es) := convertExprs r.expressions s2
  (s3, ⟨h, b, es⟩)

/-- Interning conversion of a list of rules, left to right. -/
def convertRules : List Rule → SymbolTable → SymbolTable × List Biscuit.Rule
  | [], s => (s, [])
  | r :: rs, s =>
    let (s1, r') := r.convert s
    let (s2, rs') := convertRules rs s1
    (s2, r' :: rs')

/-- Modelled from the spec: interning conversion of a check. -/
def Check.convert (c : Check) (s : SymbolTable) : SymbolTable × Biscuit.Check :=
  let (s', qs) := convertRules c.queries s
  (s', ⟨qs⟩)

/-- Interning conversion of a list of checks, left to right. -/
def convertChecks : List Check → SymbolTable → SymbolTable × List Biscuit.Check
  | [], s => (s, [])
  | c :: cs, s =>
    let (s1, c') := c.convert s
    let (s2, cs') := convertChecks cs s1
    (s2, c' :: cs')

/-- The variable names appearing in a builder predicate. -/
def Predicate.variableNames (p : Predicate) : List String :=
  p.ids.filterMap fun t =>
    match t with
    | .var x => some x
    | _ => none

/-- Modelled from the spec: `builder::Rule::validate_variables` — a rule is
well-formed iff every head variable appears among the body predicates'
variables (section 3). -/
def Rule.validate_variables (r : Rule) : Bool :=
  r.head.variableNames.all fun v => (r.body.flatMap Predicate.variableNames).contains v

end builder

/-! ## Reading datalog values back as builder values (`convert_from`) -/

/-- Modelled from the spec: reading an interned set element back through a
symbol table. -/
def Atom.convert_from (t : SymbolTable) : Atom → builder.Atom
  | .integer i => .integer i
  | .str s => .str (t.lookup s)
  | .date d => .date d
  | .bytes b => .bytes b
  | .bool b => .bool b

/-- Modelled from the spec: reading a datalog term back through a symbol
table, recovering strings from IDs. -/
def ID.convert_from (t : SymbolTable) : ID → builder.Term
  | .var v => .var (t.lookup v)
  | .integer i => .integer i
  | .str s => .str (t.lookup s)
  | .date d => .date d
  | .bytes b => .bytes b
  | .bool b => .bool b
  | .set l => .set (l.map (Atom.convert_from t))

/-- Modelled from the spec: `Predicate::convert_from`. -/
def Predicate.convert_from (p : Predicate) (t : SymbolTable) : builder.Predicate :=
  ⟨t.lookup p.name, p.ids.map (ID.convert_from t)⟩

/-- Modelled from the spec: `Fact::convert_from`. -/
def Fact.convert_from (f : Fact) (t : SymbolTable) : builder.Fact :=
  Predicate.convert_from f t

/-- Modelled from the spec: reading an opcode back through a symbol table. -/
def ExOp.convert_from (t : SymbolTable) : ExOp → builder.Op
  | .value x => .value (ID.convert_from t x)
  | .unary k => .unary k
  | .binary k => .binary k

/-- Modelled from the spec: reading an expression back through a symbol
table. -/
def Expression.convert_from (e : Expression) (t : SymbolTable) : builder.Expression :=
  ⟨e.ops.map (ExOp.convert_from t)⟩

/-- Modelled from the spec: `Rule::convert_from`. -/
def Rule.convert_from (r : Rule) (t : SymbolTable) : builder.Rule :=
  ⟨r.head.convert_from t, r.body.map (Predicate.convert_from · t),
    r.expressions.map (Expression.convert_from · t)⟩

/-- Modelled from the spec: `Check::convert_from`. -/
def Check.convert_from (c : Check) (t : SymbolTable) : builder.Check :=
  ⟨c.queries.map (Rule.convert_from · t)⟩

/-! ## Token model (spec sections 3 and 6) -/

/-- Modelled from the spec: a token block — facts, rules and checks already
in datalog (symbol-ID) form relative to the token's own symbol table
(section 3). -/
structure Block where
  facts : List Fact
  rules : List Rule
  checks : List Check
deriving DecidableEq

/-- Modelled from the spec: the token (`Biscuit`): one authority block, an
ordered sequence of attenuating blocks, the token's symbol table, and the
revocation identifiers (one byte string per block, index 0 = authority,
as returned by `revocation_identifiers()`). -/
structure Token where
  authority : Block
  blocks : List Block
  symbols : SymbolTable
  revocation_ids : List (List Nat)
deriving DecidableEq

/-! ## Errors (spec section 7, `error` module) -/

/-- A failed check, identified by its source: a verifier-supplied check
(`error::FailedCheck::Verifier`, carrying the check index) or a token block
check (`error::FailedCheck::Block`, carrying the block ID and check index).
The printable rendering the source attaches is outside the model. -/
inductive FailedCheck where
  | verifier : Nat → FailedCheck
  | block : Nat → Nat → FailedCheck
deriving DecidableEq

/-- The error taxonomy of `error::Token` as used by the verifier. The
rendered-rule string of `invalidBlockRule` is outside the model. `panicked`
models the source's `unwrap` of the `revocation_id` symbol lookup, which
panics when that reserved symbol is absent. -/
inductive TokenError where
  | parseError
  | missingSymbols
  | invalidBlockRule : Nat → TokenError
  | runLimit : RunError → TokenError
  | failedChecks : List FailedCheck → TokenError
  | deny : Nat → TokenError
  | noMatchingPolicy
  | panicked
deriving DecidableEq

/-! ## Verifier state and limits (from `src/token/verifier.rs`) -/

/-- The verifier (source lines 21-28): the working world (facts and rules),
the verifier's symbol table, host-supplied checks and policies kept at
builder level, checks extracted from tokens, and the optionally attached
token. -/
structure Verifier where
  world_facts : List Fact
  world_rules : List Rule
  symbols : SymbolTable
  checks : List builder.Check
  token_checks : List (List Check)
  policies : List builder.Policy
  token : Option Token
deriving DecidableEq

/-- Source `Verifier::new` (source lines 47-59): an empty world over the default
symbol table, no token attached. -/
def Verifier.new : Verifier :=
  ⟨[], [], defaultSymbolTable, [], [], [], none⟩

/-- Source `Verifier::from_token` (source lines 31-36): a fresh verifier with the
token attached. -/
def Verifier.from_token (t : Token) : Verifier :=
  { Verifier.new with token := some t }

/-- Source `VerifierLimits` (source lines 522-529). Time is in abstract clock
units. -/
structure VerifierLimits where
  max_facts : Nat
  max_iterations : Nat
  max_time : Nat
deriving DecidableEq

/-- The default verifier limits (source lines 531-539): 1000 facts, 100
iterations, 1 ms (1000000 clock units, matching `RunLimits.default`). -/
def VerifierLimits.default : VerifierLimits :=
  ⟨1000, 100, 1000000⟩

/-- The `From<VerifierLimits> for RunLimits` conversion (source lines
541-549): field-for-field. -/
def VerifierLimits.toRunLimits (l : VerifierLimits) : RunLimits :=
  ⟨l.max_facts, l.max_iterations, l.max_time⟩

/-! ## The evaluation state threaded through `verify_with_limits`

The source mutates `self.world` and `self.symbols` in place; the model
threads this state explicitly. The tick counter indexing calls of
`Instant::now()` is threaded separately by the clocked phases. -/

/-- The mutable state of `verify_with_limits`: the verifier's symbol table
and the world's facts and rules. -/
structure EvalSt where
  symbols : SymbolTable
  facts : List Fact
  rules : List Rule
deriving DecidableEq

/-- The result of a clocked phase: the state, the next tick, and either an
early-abort error or the phase's value. The state is returned on the error
path too, mirroring the source's in-place mutation. -/
abbrev PhaseRes (α : Type) := EvalSt × Nat × Except TokenError α

/-- Fact ingestion from a token block (source lines 259-262 and 366-369):
each datalog fact is read back through the token's symbol table and
re-interned into the verifier's table, then inserted into the world. No
filtering of `authority`/`ambient` facts is performed. -/
def ingestFacts (ts : SymbolTable) : List Fact → EvalSt → EvalSt
  | [], st => st
  | f :: fs, st =>
    let fb := Fact.convert_from f ts
    let (s', fd) := builder.Fact.convert fb st.symbols
    ingestFacts ts fs { st with symbols := s', facts := insertFact st.facts fd }

/-- Revocation fact insertion (source lines 264-271): for the i-th
revocation identifier, insert `revocation_id(i, id)`. -/
def insertRevocationFacts (revSym : Nat) (ids : List (List Nat)) (st : EvalSt) : EvalSt :=
  { st with
    facts := (ids.enum.map fun (i, id) =>
      (⟨revSym, [ID.integer i, ID.bytes id]⟩ : Fact)).foldl insertFact st.facts }

/-- Authority rule processing (source lines 273-282): each authority rule is
read back through the token's symbol table, converted into the verifier's
table (interning symbols), and validated; an ill-formed rule aborts with
`InvalidBlockRule(0, _)`. The converted rule is otherwise discarded — the
source never appends it to `world.rules`. -/
def authorityRules (ts : SymbolTable) : List Rule → EvalSt → EvalSt × Option TokenError
  | [], st => (st, none)
  | r :: rs, st =>
    let rb := Rule.convert_from r ts
    let (s', _rd) := rb.convert st.symbols
    let st := { st with symbols := s' }
    if rb.validate_variables then authorityRules ts rs st
    else (st, some (.invalidBlockRule 0))

/-- Block rule processing for the i-th attenuating block (source lines
371-384): validate first — an ill-formed rule aborts with
`InvalidBlockRule(i, _)`, `i` being the 0-based position of the block —
then convert and append to `world.rules`. -/
def blockRules (ts : SymbolTable) (blockIdx : Nat) : List Rule → EvalSt → EvalSt × Option TokenError
  | [], st => (st, none)
  | r :: rs, st =>
    let rb := Rule.convert_from r ts
    if rb.validate_variables then
      let (s', rd) := rb.convert st.symbols
      blockRules ts blockIdx rs { st with symbols := s', rules := st.rules ++ [rd] }
    else (st, some (.invalidBlockRule blockIdx))

/-- The world run inside `verify_with_limits` (source lines 284-289 and
386-389): the source invokes `run_with_limits(RunLimits::default())` — the
default limits, not the caller's — and clears `world.rules` on success. -/
def runWorldDefault (st : EvalSt) : EvalSt × Option TokenError :=
  match worldRun RunLimits.default st.facts st.rules with
  | .ok fs => ({ st with facts := fs, rules := [] }, none)
  | .error e => (st, some (.runLimit e))

/-- The query loop over a check's builder-level queries (source lines
295-307): convert the query (interning symbols), match it, read the clock
and abort with `Timeout` past the deadline, and stop at the first matching
query. -/
def queryLoopB (clock : Nat → Nat) (tl : Nat) : List builder.Rule → EvalSt → Nat → PhaseRes Bool
  | [], st, t => (st, t, .ok false)
  | q :: qs, st, t =>
    let (s', qd) := q.convert st.symbols
    let st := { st with symbols := s' }
    let res := queryMatch st.facts qd
    let now := clock t
    let t := t + 1
    if tl ≤ now then (st, t, .error (.runLimit .timeout))
    else if res then (st, t, .ok true)
    else queryLoopB clock tl qs st t

/-- The query loop over an already-converted check's queries (source lines
323-335 and 396-408): match each query, read the clock and abort with
`Timeout` past the deadline, and stop at the first matching query. -/
def queryLoopD (clock : Nat → Nat) (tl : Nat) : List Rule → EvalSt → Nat → PhaseRes Bool
  | [], st, t => (st, t, .ok false)
  | q :: qs, st, t =>
    let res := queryMatch st.facts q
    let now := clock t
    let t := t + 1
    if tl ≤ now then (st, t, .error (.runLimit .timeout))
    else if res then (st, t, .ok true)
    else queryLoopD clock tl qs st t

/-- The loop over verifier-supplied checks (source lines 291-315): each
check is converted (interning symbols, the result used only for rendering),
its queries are evaluated, and a check with no matching query appends
`FailedCheck::Verifier` with its index. -/
def verifierChecks (clock : Nat → Nat) (tl : Nat) :
    List builder.Check → Nat → EvalSt → Nat → List FailedCheck → PhaseRes (List FailedCheck)
  | [], _, st, t, errs => (st, t, .ok errs)
  | c :: cs, i, st, t, errs =>
    let (s', _cd) := c.convert st.symbols
    let st := { st with symbols := s' }
    match queryLoopB clock tl c.queries st t with
    | (st, t, .error e) => (st, t, .error e)
    | (st, t, .ok successful) =>
      let errs := if successful then errs else errs ++ [FailedCheck.verifier i]
      verifierChecks clock tl cs (i + 1) st t errs

/-- The loop over a token block's checks (source lines 317-344 for the
authority block with `block_id` 0, and 391-417 for attenuating block `i`
with `block_id` `i + 1`): each check is read back through the token's table,
converted into the verifier's table, its converted queries are evaluated,
and a check with no matching query appends `FailedCheck::Block`. -/
def blockChecks (clock : Nat → Nat) (tl : Nat) (ts : SymbolTable) (blockId : Nat) :
    List Check → Nat → EvalSt → Nat → List FailedCheck → PhaseRes (List FailedCheck)
  | [], _, st, t, errs => (st, t, .ok errs)
  | c :: cs, j, st, t, errs =>
    let cb := Check.convert_from c ts
    let (s', cd) := cb.convert st.symbols
    let st := { st with symbols := s' }
    match queryLoopD clock tl cd.queries st t with
    | (st, t, .error e) => (st, t, .error e)
    | (st, t, .ok successful) =>
      let errs := if successful then errs else errs ++ [FailedCheck.block blockId j]
      blockChecks clock tl ts blockId cs (j + 1) st t errs

/-- The query loop of one policy (source lines 347-361): every query is
converted and matched — there is no break — and each matching query
overwrites the candidate verdict with this policy's index (`Ok` for an
allow policy, `Err` for a deny policy). -/
def policyQueries (clock : Nat → Nat) (tl : Nat) (kind : builder.PolicyKind) (i : Nat) :
    List builder.Rule → EvalSt → Nat → Option (Sum Nat Nat) → PhaseRes (Option (Sum Nat Nat))
  | [], st, t, pres => (st, t, .ok pres)
  | q :: qs, st, t, pres =>
    let (s', qd) := q.convert st.symbols
    let st := { st with symbols := s' }
    let res := queryMatch st.facts qd
    let now := clock t
    let t := t + 1
    if tl ≤ now then (st, t, .error (.runLimit .timeout))
    else
      let pres := if res then
          some (match kind with
            | .allow => Sum.inl i
            | .deny => Sum.inr i)
        else pres
      policyQueries clock tl kind i qs st t pres

/-- The loop over all policies in order (source lines 346-362). -/
def policiesLoop (clock : Nat → Nat) (tl : Nat) :
    List builder.Policy → Nat → EvalSt → Nat → Option (Sum Nat Nat) →
      PhaseRes (Option (Sum Nat Nat))
  | [], _, st, t, pres => (st, t, .ok pres)
  | p :: ps, i, st, t, pres =>
    match policyQueries clock tl p.kind i p.queries st t pres with
    | (st, t, .error e) => (st, t, .error e)
    | (st, t, .ok pres) => policiesLoop clock tl ps (i + 1) st t pres

/-- The loop over attenuating blocks (source lines 364-418): for the k-th
block (0-based), ingest its facts (unfiltered), validate and append its
rules, run the world under the default limits and clear the rules, then
evaluate its checks with `block_id` `k + 1`. -/
def processBlocks (clock : Nat → Nat) (tl : Nat) (ts : SymbolTable) :
    List Block → Nat → EvalSt → Nat → List FailedCheck → PhaseRes (List FailedCheck)
  | [], _, st, t, errs => (st, t, .ok errs)
  | b :: bs, k, st, t, errs =>
    let st := ingestFacts ts b.facts st
    match blockRules ts k b.rules st with
    | (st, some e) => (st, t, .error e)
    | (st, none) =>
      match runWorldDefault st with
      | (st, some e) => (st, t, .error e)
      | (st, none) =>
        match blockChecks clock tl ts (k + 1) b.checks 0 st t errs with
        | (st, t, .error e) => (st, t, .error e)
        | (st, t, .ok errs) => processBlocks clock tl ts bs (k + 1) st t errs

/-- Reassembling the verifier from the threaded state (the source mutates
`self` in place; `self.token` was taken). -/
def reassemble (v : Verifier) (st : EvalSt) : Verifier :=
  { v with
    symbols := st.symbols
    world_facts := st.facts
    world_rules := st.rules
    token := none }

/-- Source `Verifier::verify_with_limits` (source lines 244-432), the verification
algorithm. `clock` gives the reading of each call of `Instant::now()`; the
deadline is `clock 0 + limits.max_time`. Returns the mutated verifier (the
token, when present, is consumed) together with the decision. -/
def Verifier.verify_with_limits (v : Verifier) (clock : Nat → Nat) (limits : VerifierLimits) :
    Verifier × Except TokenError Nat :=
  let start := clock 0
  let tl := start + limits.max_time
  if (v.symbols.get "authority").isNone || (v.symbols.get "ambient").isNone then
    (v, .error .missingSymbols)
  else
    match v.token with
    | none => (v, .error .noMatchingPolicy)
    | some token =>
      let st : EvalSt := ⟨v.symbols, v.world_facts, v.world_rules⟩
      let st := ingestFacts token.symbols token.authority.facts st
      match st.symbols.get "revocation_id" with
      | none => (reassemble v st, .error .panicked)
      | some revSym =>
        let st := insertRevocationFacts revSym token.revocation_ids st
        match authorityRules token.symbols token.authority.rules st with
        | (st, some e) => (reassemble v st, .error e)
        | (st, none) =>
          match runWorldDefault st with
          | (st, some e) => (reassemble v st, .error e)
          | (st, none) =>
            match verifierChecks clock tl v.checks 0 st 1 [] with
            | (st, _, .error e) => (reassemble v st, .error e)
            | (st, t, .ok errs) =>
              match blockChecks clock tl token.symbols 0 token.authority.checks 0 st t errs with
              | (st, _, .error e) => (reassemble v st, .error e)
              | (st, t, .ok errs) =>
                match policiesLoop clock tl v.policies 0 st t none with
                | (st, _, .error e) => (reassemble v st, .error e)
                | (st, t, .ok pres) =>
                  match processBlocks clock tl token.symbols token.blocks 0 st t errs with
                  | (st, _, .error e) => (reassemble v st, .error e)
                  | (st, _, .ok errs) =>
                    (reassemble v st,
                      if errs.isEmpty then
                        match pres with
                        | some (Sum.inl i) => .ok i
                        | some (Sum.inr i) => .error (.deny i)
                        | none => .error .noMatchingPolicy
                      else .error (.failedChecks errs))

/-- Source `Verifier::verify` (source lines 235-237): verification under the
default limits. -/
def Verifier.verify (v : Verifier) (clock : Nat → Nat) : Verifier × Except TokenError Nat :=
  v.verify_with_limits clock VerifierLimits.default

/-! ## The other public operations of the verifier

The source takes parser-convertible inputs (`TryInto<Fact>` etc.); the
parser is out of scope per the spec, so the model takes already-parsed
builder values (hence `ParseError` never arises in the model). Operations
that take `&self` in the source are modelled as returning the receiver
unchanged alongside their result. -/

/-- Source `Verifier::add_fact` (source lines 130-134): convert the fact (interning
its symbols) and insert it into the world. -/
def Verifier.add_fact (v : Verifier) (f : builder.Fact) : Verifier :=
  let (s', fd) := builder.Fact.convert f v.symbols
  { v with symbols := s', world_facts := insertFact v.world_facts fd }

/-- Source `Verifier::add_rule` (source lines 137-141): convert the rule (interning
its symbols) and append it to the world's rules. -/
def Verifier.add_rule (v : Verifier) (r : builder.Rule) : Verifier :=
  let (s', rd) := builder.Rule.convert r v.symbols
  { v with symbols := s', world_rules := v.world_rules ++ [rd] }

/-- Source `Verifier::add_check` (source lines 177-181): push the builder-level
check (no conversion happens until `verify`). -/
def Verifier.add_check (v : Verifier) (c : builder.Check) : Verifier :=
  { v with checks := v.checks ++ [c] }

/-- Source `Verifier::add_policy` (source lines 217-221): push the builder-level
policy. -/
def Verifier.add_policy (v : Verifier) (p : builder.Policy) : Verifier :=
  { v with policies := v.policies ++ [p] }

/-- Source `Verifier::add_resource` (source lines 183-186): insert the fact
`resource(<string>)`. -/
def Verifier.add_resource (v : Verifier) (r : String) : Verifier :=
  v.add_fact ⟨"resource", [builder.Term.str r]⟩

/-- Source `Verifier::add_operation` (source lines 188-191): insert the fact
`operation(<symbol>)` (the model has a single interned string kind). -/
def Verifier.add_operation (v : Verifier) (op : String) : Verifier :=
  v.add_fact ⟨"operation", [builder.Term.str op]⟩

/-- Source `Verifier::set_time` (source lines 194-197): insert the fact
`time(now)`; the current time is a parameter of the model. -/
def Verifier.set_time (v : Verifier) (now : Nat) : Verifier :=
  v.add_fact ⟨"time", [builder.Term.date now]⟩

/-- Source `Verifier::revocation_check` (source lines 199-214): add a verifier
check with the single query
`revocation_check($id) <- revocation_id($id) | !(<ids as a set> contains $id)`
— note the single-term body predicate and the integer-set constraint. -/
def Verifier.revocation_check (v : Verifier) (ids : List Int) : Verifier :=
  v.add_check ⟨[⟨⟨"revocation_check", [builder.Term.var "id"]⟩,
    [⟨"revocation_id", [builder.Term.var "id"]⟩],
    [⟨[builder.Op.value (builder.Term.set (ids.map builder.Atom.integer)),
       builder.Op.value (builder.Term.var "id"),
       builder.Op.binary BinaryOp.contains,
       builder.Op.unary UnaryOp.negate]⟩]⟩]⟩

/-- Source `Verifier::allow` (source lines 223-225): the convenience policy
`allow if true`. -/
def Verifier.allow (v : Verifier) : Verifier :=
  v.add_policy ⟨[⟨⟨"allow", []⟩, [], [⟨[builder.Op.value (builder.Term.bool true)]⟩]⟩],
    builder.PolicyKind.allow⟩

/-- Source `Verifier::deny` (source lines 227-229): the convenience policy
`deny if true`. -/
def Verifier.deny (v : Verifier) : Verifier :=
  v.add_policy ⟨[⟨⟨"deny", []⟩, [], [⟨[builder.Op.value (builder.Term.bool true)]⟩]⟩],
    builder.PolicyKind.deny⟩

/-- Source `Verifier::query_with_limits` (source lines 154-174): run the world
under the caller's limits (converted field-for-field), then convert the
query (interning symbols) and collect the matching facts, read back through
the verifier's table. On a run error the world's partial mutation is not
observable through the returned error; the model leaves the pre-run facts in
place. -/
def Verifier.query_with_limits (v : Verifier) (r : builder.Rule) (limits : VerifierLimits) :
    Verifier × Except TokenError (List builder.Fact) :=
  match worldRun limits.toRunLimits v.world_facts v.world_rules with
  | .error e => (v, .error (.runLimit e))
  | .ok fs =>
    let (s', rd) := r.convert v.symbols
    let res := queryRule fs rd
    ({ v with world_facts := fs, symbols := s' },
      .ok (res.map fun f => Fact.convert_from f s'))

/-- Source `Verifier::query` (source lines 144-149): query under the default
limits. -/
def Verifier.query (v : Verifier) (r : builder.Rule) :
    Verifier × Except TokenError (List builder.Fact) :=
  v.query_with_limits r VerifierLimits.default

/-- The serialized verifier content (`VerifierPolicies`, source lines
506-518); the protobuf wire encoding is outside the model. -/
structure VerifierPolicies where
  version : Nat
  symbols : SymbolTable
  facts : List Fact
  rules : List Rule
  checks : List Check
  policies : List builder.Policy
deriving DecidableEq

/-- Source `MAX_SCHEMA_VERSION` of the `token` module, per the spec's persisted
blob layout (section 6). -/
def MAX_SCHEMA_VERSION : Nat := 1

/-- Source `Verifier::save` (source lines 98-127): converts the host checks with a
clone of the symbol table, appends the token checks, and packages the world;
`self` is borrowed immutably, so the verifier is returned unchanged. -/
def Verifier.save (v : Verifier) : Verifier × VerifierPolicies :=
  let (s', cs) := builder.convertChecks v.checks v.symbols
  let checks := cs ++ v.token_checks.flatten
  (v, ⟨MAX_SCHEMA_VERSION, s', v.world_facts, v.world_rules, checks, v.policies⟩)

/-- Source `Verifier::dump` (source lines 480-503): the world's facts and rules
read back through the symbol table, the host checks followed by the token
checks read back, and the policies; `self` is borrowed immutably. -/
def Verifier.dump (v : Verifier) :
    Verifier × (List builder.Fact × List builder.Rule × List builder.Check ×
      List builder.Policy) :=
  (v,
    (v.world_facts.map (Fact.convert_from · v.symbols),
     v.world_rules.map (Rule.convert_from · v.symbols),
     v.checks ++ (v.token_checks.flatten.map (Check.convert_from · v.symbols)),
     v.policies))

/-! ## Clockless mirrors of the clocked evaluation phases

When no deadline is ever exceeded the clocked phases compute these pure
functions (proved below); they let the checking and policy behaviour be
characterized without the tick bookkeeping. -/

/-- Clockless mirror of `queryLoopB`. -/
def pureQueryLoopB : List builder.Rule → EvalSt → EvalSt × Bool
  | [], st => (st, false)
  | q :: qs, st =>
    let (s', qd) := q.convert st.symbols
    let st := { st with symbols := s' }
    if queryMatch st.facts qd then (st, true)
    else pureQueryLoopB qs st

/-- Clockless mirror of `queryLoopD`. -/
def pureQueryLoopD : List Rule → EvalSt → EvalSt × Bool
  | [], st => (st, false)
  | q :: qs, st =>
    if queryMatch st.facts q then (st, true)
    else pureQueryLoopD qs st

/-- Clockless mirror of `verifierChecks`. -/
def pureVerifierChecks : List builder.Check → Nat → EvalSt → List FailedCheck →
    EvalSt × List FailedCheck
  | [], _, st, errs => (st, errs)
  | c :: cs, i, st, errs =>
    let (s', _cd) := c.convert st.symbols
    let st := { st with symbols := s' }
    let (st, successful) := pureQueryLoopB c.queries st
    pureVerifierChecks cs (i + 1) st
      (if successful then errs else errs ++ [FailedCheck.verifier i])

/-- Clockless mirror of `blockChecks`. -/
def pureBlockChecks (ts : SymbolTable) (blockId : Nat) :
    List Check → Nat → EvalSt → List FailedCheck → EvalSt × List FailedCheck
  | [], _, st, errs => (st, errs)
  | c :: cs, j, st, errs =>
    let cb := Check.convert_from c ts
    let (s', cd) := cb.convert st.symbols
    let st := { st with symbols := s' }
    let (st, successful) := pureQueryLoopD cd.queries st
    pureBlockChecks ts blockId cs (j + 1) st
      (if successful then errs else errs ++ [FailedCheck.block blockId j])

/-- The candidate verdict contributed by a policy kind at an index. -/
def kindSum : builder.PolicyKind → Nat → Sum Nat Nat
  | .allow, i => Sum.inl i
  | .deny, i => Sum.inr i

/-- Clockless mirror of `policyQueries`. -/
def purePolicyQueries (kind : builder.PolicyKind) (i : Nat) :
    List builder.Rule → EvalSt → Option (Sum Nat Nat) → EvalSt × Option (Sum Nat Nat)
  | [], st, pres => (st, pres)
  | q :: qs, st, pres =>
    let (s', qd) := q.convert st.symbols
    let st := { st with symbols := s' }
    purePolicyQueries kind i qs st
      (if queryMatch st.facts qd then some (kindSum kind i) else pres)

/-- Clockless mirror of `policiesLoop`. -/
def purePolicies : List builder.Policy → Nat → EvalSt → Option (Sum Nat Nat) →
    EvalSt × Option (Sum Nat Nat)
  | [], _, st, pres => (st, pres)
  | p :: ps, i, st, pres =>
    let (st, pres) := purePolicyQueries p.kind i p.queries st pres
    purePolicies ps (i + 1) st pres

/-- Clockless mirror of `processBlocks`. -/
def pureProcessBlocks (ts : SymbolTable) :
    List Block → Nat → EvalSt → List FailedCheck → EvalSt × Except TokenError (List FailedCheck)
  | [], _, st, errs => (st, .ok errs)
  | b :: bs, k, st, errs =>
    let st := ingestFacts ts b.facts st
    match blockRules ts k b.rules st with
    | (st, some e) => (st, .error e)
    | (st, none) =>
      match runWorldDefault st with
      | (st, some e) => (st, .error e)
      | (st, none) =>
        let (st, errs) := pureBlockChecks ts (k + 1) b.checks 0 st errs
        pureProcessBlocks ts bs (k + 1) st errs

/-- The decision computed from the four phases that follow a successful
authority run, all in clockless form; `verify_with_limits` computes exactly
this when no deadline is exceeded (proved below). -/
def pureOutcome (v : Verifier) (token : Token) (st4 : EvalSt) : Except TokenError Nat :=
  let (st5, errs1) := pureVerifierChecks v.checks 0 st4 []
  let (st6, errs2) := pureBlockChecks token.symbols 0 token.authority.checks 0 st5 errs1
  let (st7, pres) := purePolicies v.policies 0 st6 none
  match pureProcessBlocks token.symbols token.blocks 0 st7 errs2 with
  | (_, .error e) => .error e
  | (_, .ok errs3) =>
    if errs3.isEmpty then
      match pres with
      | some (Sum.inl i) => .ok i
      | some (Sum.inr i) => .error (.deny i)
      | none => .error .noMatchingPolicy
    else .error (.failedChecks errs3)

/-! ## Specification-side characterizations

These functions state the claims' readings of the checking and policy
phases: the per-check match outcomes (one Boolean per check, in order), the
failure entries they induce, and the list of policies that had at least one
matching query. They are proved equal to the mirrors above. -/

/-- The match outcome of each verifier-supplied check, in order, with the
staged symbol-table effects of evaluation. -/
def checkResultsB : List builder.Check → EvalSt → EvalSt × List Bool
  | [], st => (st, [])
  | c :: cs, st =>
    let (s', _cd) := c.convert st.symbols
    let st := { st with symbols := s' }
    let (st, b) := pureQueryLoopB c.queries st
    let (st, bs) := checkResultsB cs st
    (st, b :: bs)

/-- The match outcome of each token-block check, in order. -/
def checkResultsD (ts : SymbolTable) : List Check → EvalSt → EvalSt × List Bool
  | [], st => (st, [])
  | c :: cs, st =>
    let cb := Check.convert_from c ts
    let (s', cd) := cb.convert st.symbols
    let st := { st with symbols := s' }
    let (st, b) := pureQueryLoopD cd.queries st
    let (st, bs) := checkResultsD ts cs st
    (st, b :: bs)

/-- The `FailedCheck::Verifier` entries induced by per-check outcomes,
numbering from `i`: one entry per non-matching check, in order. -/
def failuresB : List Bool → Nat → List FailedCheck
  | [], _ => []
  | b :: bs, i => (if b then [] else [FailedCheck.verifier i]) ++ failuresB bs (i + 1)

/-- The `FailedCheck::Block` entries induced by per-check outcomes of the
block `blockId`, numbering checks from `j`. -/
def failuresBlock (blockId : Nat) : List Bool → Nat → List FailedCheck
  | [], _ => []
  | b :: bs, j => (if b then [] else [FailedCheck.block blockId j]) ++ failuresBlock blockId bs (j + 1)

/-- Whether any query of a policy matches, with every query converted (the
source's policy loop never breaks). -/
def policyAnyMatch : List builder.Rule → EvalSt → EvalSt × Bool
  | [], st => (st, false)
  | q :: qs, st =>
    let (s', qd) := q.convert st.symbols
    let st := { st with symbols := s' }
    let res := queryMatch st.facts qd
    let (st, rest) := policyAnyMatch qs st
    (st, res || rest)

/-- The policies that had at least one matching query, in evaluation order,
as (index, kind) pairs. -/
def policyScan : List builder.Policy → Nat → EvalSt → EvalSt × List (Nat × builder.PolicyKind)
  | [], _, st => (st, [])
  | p :: ps, i, st =>
    let (st, matched) := policyAnyMatch p.queries st
    let (st', rest) := policyScan ps (i + 1) st
    (st', (if matched then [(i, p.kind)] else []) ++ rest)

/-- Per-block check outcomes: for each attenuating block in order, after its
facts are ingested, its rules validated, appended and run, the match outcome
of each of its checks. -/
def blockResultsPure (ts : SymbolTable) :
    List Block → Nat → EvalSt → EvalSt × Except TokenError (List (List Bool))
  | [], _, st => (st, .ok [])
  | b :: bs, k, st =>
    let st := ingestFacts ts b.facts st
    match blockRules ts k b.rules st with
    | (st, some e) => (st, .error e)
    | (st, none) =>
      match runWorldDefault st with
      | (st, some e) => (st, .error e)
      | (st, none) =>
        let (st, bools) := checkResultsD ts b.checks st
        match blockResultsPure ts bs (k + 1) st with
        | (st, .ok rest) => (st, .ok (bools :: rest))
        | (st, .error e) => (st, .error e)

/-- The `FailedCheck::Block` entries induced by per-block outcomes: the
k-th processed block (0-based, numbered from `k0`) reports `block_id`
`k + 1`. -/
def blockFailures : List (List Bool) → Nat → List FailedCheck
  | [], _ => []
  | bools :: rest, k => failuresBlock (k + 1) bools 0 ++ blockFailures rest (k + 1)

deriving instance DecidableEq for Except

/-! ## Concrete instances used by the claim theorems -/

/-- A clock that never advances: no deadline with a positive budget is ever
exceeded. -/
def clock0 : Nat → Nat := fun _ => 0

/-- Limits with a positive time budget (no timeout under `clock0`) and the
default fact/iteration bounds. -/
def limitsQuick : VerifierLimits := ⟨1000, 100, 1⟩

/-- A token symbol table with `p`, `q`, `x` appended (IDs 6, 7, 8). -/
def tokSyms1 : SymbolTable := ⟨defaultSymbolTable.symbols ++ ["p", "q", "x"]⟩

/-- A token whose authority block carries the fact `p(1)` and the
well-formed rule `q($x) <- p($x)`. -/
def token1 : Token :=
  ⟨⟨[⟨6, [ID.integer 1]⟩], [⟨⟨7, [ID.var 8]⟩, [⟨6, [ID.var 8]⟩], []⟩], []⟩,
   [], tokSyms1, [[170]]⟩

/-- A verifier holding `token1` and the single policy `allow if q(1)`. -/
def v1 : Verifier :=
  (Verifier.from_token token1).add_policy
    ⟨[⟨⟨"query", []⟩, [⟨"q", [builder.Term.integer 1]⟩], []⟩], builder.PolicyKind.allow⟩

/-- A token symbol table with `x`, `check0` appended (IDs 6, 7). -/
def tokSyms2 : SymbolTable := ⟨defaultSymbolTable.symbols ++ ["x", "check0"]⟩

/-- A block check `check0 <- authority("x")` (predicate ID 0 is
`authority`). -/
def blockCheck2 : Check := ⟨[⟨⟨7, []⟩, [⟨0, [ID.str 6]⟩], []⟩]⟩

/-- A token whose single attenuating block asserts the fact
`authority("x")` and checks for it. -/
def token2a : Token :=
  ⟨⟨[], [], []⟩, [⟨[⟨0, [ID.str 6]⟩], [], [blockCheck2]⟩], tokSyms2, [[1], [2]]⟩

/-- Token `token2a` without the block-supplied `authority("x")` fact. -/
def token2b : Token :=
  ⟨⟨[], [], []⟩, [⟨[], [], [blockCheck2]⟩], tokSyms2, [[1], [2]]⟩

/-- A verifier holding `token2a` and the policy `allow if true`. -/
def v2a : Verifier := (Verifier.from_token token2a).allow

/-- A verifier holding `token2b` and the policy `allow if true`. -/
def v2b : Verifier := (Verifier.from_token token2b).allow

/-- A trivial token: empty authority block, no attenuating blocks, one
revocation identifier. -/
def tokenTrivial : Token := ⟨⟨[], [], []⟩, [], defaultSymbolTable, [[170]]⟩

/-- A verifier holding the trivial token, the host fact `p(1)`, the host
rule `q($x) <- p($x)` and the policy `allow if true`. -/
def v3 : Verifier :=
  (((Verifier.from_token tokenTrivial).add_fact ⟨"p", [builder.Term.integer 1]⟩).add_rule
      ⟨⟨"q", [builder.Term.var "x"]⟩, [⟨"p", [builder.Term.var "x"]⟩], []⟩).allow

/-- Limits whose fact bound is zero: any productive run must exceed it. -/
def limits3 : VerifierLimits := ⟨0, 100, 1⟩

/-- A verifier holding the trivial token (whose only revocation identifier
is the byte string `[170]`), `revocation_check([1])`, and `allow if true`:
no revocation identifier of the token is in the given set. -/
def v5 : Verifier := ((Verifier.from_token tokenTrivial).revocation_check [1]).allow

/-- A verifier with zero policies, holding the trivial token and one
verifier check that cannot match (`c <- nonexistent("x")`). -/
def v6 : Verifier :=
  (Verifier.from_token tokenTrivial).add_check
    ⟨[⟨⟨"c", []⟩, [⟨"nonexistent", [builder.Term.str "x"]⟩], []⟩]⟩

/-- A verifier with zero policies and zero checks, holding the trivial
token: no check can fail. -/
def v6empty : Verifier := Verifier.from_token tokenTrivial

/-- A token symbol table with `p`, `q`, `x`, `y` appended (IDs 6-9). -/
def tokSyms8 : SymbolTable := ⟨defaultSymbolTable.symbols ++ ["p", "q", "x", "y"]⟩

/-- The ill-formed rule `q($y) <- p($x)`: head variable `$y` is not bound by
the body. -/
def badRule8 : Rule := ⟨⟨7, [ID.var 9]⟩, [⟨6, [ID.var 8]⟩], []⟩

/-- A token whose authority block carries the ill-formed rule. -/
def token8a : Token := ⟨⟨[], [badRule8], []⟩, [], tokSyms8, [[1]]⟩

/-- A token whose first attenuating block carries the ill-formed rule. -/
def token8b : Token := ⟨⟨[], [], []⟩, [⟨[], [badRule8], []⟩], tokSyms8, [[1], [2]]⟩

/-- A token whose second attenuating block (0-based index 1) carries the
ill-formed rule. -/
def token8c : Token :=
  ⟨⟨[], [], []⟩, [⟨[], [], []⟩, ⟨[], [badRule8], []⟩], tokSyms8, [[1], [2], [3]]⟩

/-- A token-less verifier loaded with a fact, a check that cannot match, and
an `allow if true` policy. -/
def v10 : Verifier :=
  (((Verifier.new.add_fact ⟨"p", []⟩).add_check
    ⟨[⟨⟨"c", []⟩, [⟨"nonexistent", []⟩], []⟩]⟩)).allow

/-- A verifier holding the trivial token and, in order, the policies
`deny if true` then `allow if true`: both match, the allow policy last. -/
def v4w : Verifier := ((Verifier.from_token tokenTrivial).deny).allow

/-- A token symbol table with `nope`, `c` appended (IDs 6, 7). -/
def tokSyms7 : SymbolTable := ⟨defaultSymbolTable.symbols ++ ["nope", "c"]⟩

/-- A check whose single query requires a `nope()` fact, which no fixture
provides. -/
def checkNoMatch7 : Check := ⟨[⟨⟨7, []⟩, [⟨6, []⟩], []⟩]⟩

/-- A token with one failing authority check and one attenuating block with
one failing check. -/
def token7 : Token :=
  ⟨⟨[], [], [checkNoMatch7]⟩, [⟨[], [], [checkNoMatch7]⟩], tokSyms7, [[1], [2]]⟩

/-- A verifier holding `token7`, one failing verifier check and an
`allow if true` policy: every check of every source fails. -/
def v7w : Verifier :=
  ((Verifier.from_token token7).add_check
    ⟨[⟨⟨"c", []⟩, [⟨"nonexistent", []⟩], []⟩]⟩).allow

/-! # Theorems -/

/-! ## Symbol-table extension: basic lemmas -/

/-- Extension is reflexive. -/
theorem ext_refl (t : SymbolTable) : t.ExtensionOf t :=
  ⟨[], by simp⟩

/-- Extension is transitive. -/
theorem ext_trans {t3 t2 t1 : SymbolTable} (h32 : t3.ExtensionOf t2)
    (h21 : t2.ExtensionOf t1) : t3.ExtensionOf t1 := by
  obtain ⟨l1, h1⟩ := h32
  obtain ⟨l2, h2⟩ := h21
  exact ⟨l2 ++ l1, by rw [h1, h2, List.append_assoc]⟩

/-- Interning extends the table. -/
theorem insert_ext (t : SymbolTable) (s : String) : (t.insert s).1.ExtensionOf t := by
  unfold SymbolTable.insert
  match h : t.symbols.indexOf? s with
  | some i => exact ext_refl t
  | none => exact ⟨[s], rfl⟩

/-! ## Claim theorems on concrete inputs -/

/-- Claim C1: the spec says every well-formed authority rule is translated
and appended to `world.rules` before the first run, making its derivable
facts available to checks and policies. The code converts authority rules
only to render error messages and never appends them: on a token whose
authority block carries `p(1)` and `q($x) <- p($x)` and a verifier policy
`allow if q(1)`, verify returns `NoMatchingPolicy` instead of `Ok(0)`, even
though a run of the world with that rule appended would derive `q(1)`. -/
theorem c1_authority_rules_never_appended :
    (v1.verify_with_limits clock0 limitsQuick).2 = .error .noMatchingPolicy ∧
    worldRun RunLimits.default
      [⟨6, [ID.integer 1]⟩, ⟨5, [ID.integer 0, ID.bytes [170]]⟩]
      [⟨⟨7, [ID.var 8]⟩, [⟨6, [ID.var 8]⟩], []⟩]
      = .ok [⟨6, [ID.integer 1]⟩, ⟨5, [ID.integer 0, ID.bytes [170]]⟩,
          ⟨7, [ID.integer 1]⟩] :=
  ⟨by decide, by decide⟩

/-- Claim C2: a block-supplied fact whose predicate is `authority` must not
influence any check or policy outcome. The code ingests attenuating-block
facts with no filtering (directly under the comment saying blocks cannot
provide such facts, with the computed `authority`/`ambient` indices unused):
with the block fact `authority("x")` the block's check `check0 <-
authority("x")` passes and verify returns `Ok(0)`; without it the identical
token fails with `FailedChecks`. -/
theorem c2_block_authority_fact_changes_outcome :
    (v2a.verify_with_limits clock0 limitsQuick).2 = .ok 0 ∧
    (v2b.verify_with_limits clock0 limitsQuick).2
      = .error (.failedChecks [.block 1 0]) ∧
    (v2a.verify_with_limits clock0 limitsQuick).2
      ≠ (v2b.verify_with_limits clock0 limitsQuick).2 :=
  ⟨by decide, by decide, by decide⟩

/-- Claim C3: every world run inside `verify_with_limits` is claimed to
enforce the caller's `VerifierLimits`. The code passes
`RunLimits::default()` to both runs (under a FIXME): with caller limits
whose `max_facts` is 0, a verifier whose world derives a new fact still
verifies with `Ok(0)`, although the world run under the caller's converted
limits yields `TooManyFacts`. -/
theorem c3_world_runs_use_default_limits :
    (v3.verify_with_limits clock0 limits3).2 = .ok 0 ∧
    (v3.verify_with_limits clock0 limits3).2 ≠ .error (.runLimit .tooManyFacts) ∧
    worldRun limits3.toRunLimits
      [⟨6, [ID.integer 1]⟩, ⟨5, [ID.integer 0, ID.bytes [170]]⟩]
      [⟨⟨7, [ID.var 8]⟩, [⟨6, [ID.var 8]⟩], []⟩] = .error .tooManyFacts :=
  ⟨by decide, by decide, by decide⟩

/-- Claim C5: `revocation_check(ids)` is claimed to add a check whose query
matches the `revocation_id(i, id)` facts inserted by verify and passes
exactly when no matched id is in the given set. The check's query body is
the single-term predicate `revocation_id($id)`, which never unifies with
the two-term facts verify inserts (and its set holds integers while the
identifiers are byte strings): on a token whose only revocation identifier
`[170]` is not in the given set `{1}`, the check still fails and verify
returns `FailedChecks([Verifier{0}])` instead of passing. -/
theorem c5_revocation_check_always_fails :
    (v5.verify_with_limits clock0 limitsQuick).2
      = .error (.failedChecks [.verifier 0]) :=
  by decide

/-- Claim C6 (counterexample): with zero policies, verify is claimed to
always return `NoMatchingPolicy` regardless of check results. On a verifier
with zero policies, an attached token and one verifier check that does not
match, verify returns `FailedChecks([Verifier{0}])`, not
`NoMatchingPolicy`. -/
theorem c6_zero_policies_failed_checks_counterexample :
    v6.policies = [] ∧
    (v6.verify_with_limits clock0 limitsQuick).2
      = .error (.failedChecks [.verifier 0]) ∧
    (v6.verify_with_limits clock0 limitsQuick).2 ≠ .error .noMatchingPolicy :=
  ⟨by decide, by decide, by decide⟩

/-- Claim C8 (counterexample): the block identifier reported for an
ill-formed rule of the i-th attenuating block is claimed to be distinct
from the authority block's identifier 0. The code reports the 0-based block
position: an ill-formed rule in the authority block and one in the first
attenuating block both produce `InvalidBlockRule(0, _)`. -/
theorem c8_first_block_collides_with_authority :
    ((Verifier.from_token token8a).verify_with_limits clock0 limitsQuick).2
      = .error (.invalidBlockRule 0) ∧
    ((Verifier.from_token token8b).verify_with_limits clock0 limitsQuick).2
      = .error (.invalidBlockRule 0) :=
  ⟨by decide, by decide⟩

/-- Claim C10: when no token is attached and the reserved symbols are
present, verify touches nothing — no check, no policy — and returns
`NoMatchingPolicy` with the verifier unchanged, whatever facts, checks or
policies it holds. -/
theorem c10_no_token_returns_no_matching_policy (v : Verifier) (clock : Nat → Nat)
    (limits : VerifierLimits) (htok : v.token = none)
    (hauth : (v.symbols.get "authority").isSome)
    (hamb : (v.symbols.get "ambient").isSome) :
    v.verify_with_limits clock limits = (v, .error .noMatchingPolicy) := by
  obtain ⟨a, ha⟩ := Option.isSome_iff_exists.mp hauth
  obtain ⟨b, hb⟩ := Option.isSome_iff_exists.mp hamb
  unfold Verifier.verify_with_limits
  rw [htok, ha, hb]
  rfl

/-- Claim C10 witness: a token-less verifier holding a fact, a check that
cannot match, and an `allow if true` policy still returns
`NoMatchingPolicy`, unchanged. -/
theorem c10_witness :
    v10.verify_with_limits clock0 limitsQuick = (v10, .error .noMatchingPolicy) :=
  c10_no_token_returns_no_matching_policy v10 clock0 limitsQuick rfl (by decide) (by decide)

/-! ## Error shapes of the evaluation phases -/

/-- A failing builder-query loop only reports a timeout. -/
theorem queryLoopB_error_shape (clock : Nat → Nat) (tl : Nat) :
    ∀ (qs : List builder.Rule) (st st' : EvalSt) (t t' : Nat) (e : TokenError),
      queryLoopB clock tl qs st t = (st', t', .error e) → e = .runLimit .timeout := by
  intro qs
  induction qs with
  | nil => intro st st' t t' e h; simp [queryLoopB] at h
  | cons q qs ih =>
    intro st st' t t' e h
    rcases hq : q.convert st.symbols with ⟨s2, qd⟩
    simp only [queryLoopB, hq] at h
    split at h
    · simp only [Prod.mk.injEq, Except.error.injEq] at h
      exact h.2.2.symm
    · split at h
      · simp at h
      · exact ih _ _ _ _ _ h

/-- A failing datalog-query loop only reports a timeout. -/
theorem queryLoopD_error_shape (clock : Nat → Nat) (tl : Nat) :
    ∀ (qs : List Rule) (st st' : EvalSt) (t t' : Nat) (e : TokenError),
      queryLoopD clock tl qs st t = (st', t', .error e) → e = .runLimit .timeout := by
  intro qs
  induction qs with
  | nil => intro st st' t t' e h; simp [queryLoopD] at h
  | cons q qs ih =>
    intro st st' t t' e h
    simp only [queryLoopD] at h
    split at h
    · simp only [Prod.mk.injEq, Except.error.injEq] at h
      exact h.2.2.symm
    · split at h
      · simp at h
      · exact ih _ _ _ _ _ h

/-- A failing verifier-check loop only reports a timeout. -/
theorem verifierChecks_error_shape (clock : Nat → Nat) (tl : Nat) :
    ∀ (cs : List builder.Check) (i : Nat) (st st' : EvalSt) (t t' : Nat)
      (errs : List FailedCheck) (e : TokenError),
      verifierChecks clock tl cs i st t errs = (st', t', .error e) →
        e = .runLimit .timeout := by
  intro cs
  induction cs with
  | nil => intro i st st' t t' errs e h; simp [verifierChecks] at h
  | cons c cs ih =>
    intro i st st' t t' errs e h
    rcases hc : c.convert st.symbols with ⟨s2, cd⟩
    simp only [verifierChecks, hc] at h
    split at h
    · rename_i st2 t2 e2 heq
      simp only [Prod.mk.injEq, Except.error.injEq] at h
      exact h.2.2.symm ▸ queryLoopB_error_shape clock tl _ _ _ _ _ _ heq
    · exact ih _ _ _ _ _ _ _ h

/-- A failing block-check loop only reports a timeout. -/
theorem blockChecks_error_shape (clock : Nat → Nat) (tl : Nat) (ts : SymbolTable)
    (blockId : Nat) :
    ∀ (cs : List Check) (j : Nat) (st st' : EvalSt) (t t' : Nat)
      (errs : List FailedCheck) (e : TokenError),
      blockChecks clock tl ts blockId cs j st t errs = (st', t', .error e) →
        e = .runLimit .timeout := by
  intro cs
  induction cs with
  | nil => intro j st st' t t' errs e h; simp [blockChecks] at h
  | cons c cs ih =>
    intro j st st' t t' errs e h
    rcases hc : (Check.convert_from c ts).convert st.symbols with ⟨s2, cd⟩
    simp only [blockChecks, hc] at h
    split at h
    · rename_i st2 t2 e2 heq
      simp only [Prod.mk.injEq, Except.error.injEq] at h
      exact h.2.2.symm ▸ queryLoopD_error_shape clock tl _ _ _ _ _ _ heq
    · exact ih _ _ _ _ _ _ _ h

/-- A failing policy-query loop only reports a timeout. -/
theorem policyQueries_error_shape (clock : Nat → Nat) (tl : Nat)
    (kind : builder.PolicyKind) (i : Nat) :
    ∀ (qs : List builder.Rule) (st st' : EvalSt) (t t' : Nat)
      (pres : Option (Sum Nat Nat)) (e : TokenError),
      policyQueries clock tl kind i qs st t pres = (st', t', .error e) →
        e = .runLimit .timeout := by
  intro qs
  induction qs with
  | nil => intro st st' t t' pres e h; simp [policyQueries] at h
  | cons q qs ih =>
    intro st st' t t' pres e h
    rcases hq : q.convert st.symbols with ⟨s2, qd⟩
    simp only [policyQueries, hq] at h
    split at h
    · simp only [Prod.mk.injEq, Except.error.injEq] at h
      exact h.2.2.symm
    · exact ih _ _ _ _ _ _ h

/-- A failing policy loop only reports a timeout. -/
theorem policiesLoop_error_shape (clock : Nat → Nat) (tl : Nat) :
    ∀ (ps : List builder.Policy) (i : Nat) (st st' : EvalSt) (t t' : Nat)
      (pres : Option (Sum Nat Nat)) (e : TokenError),
      policiesLoop clock tl ps i st t pres = (st', t', .error e) →
        e = .runLimit .timeout := by
  intro ps
  induction ps with
  | nil => intro i st st' t t' pres e h; simp [policiesLoop] at h
  | cons p ps ih =>
    intro i st st' t t' pres e h
    simp only [policiesLoop] at h
    split at h
    · rename_i st2 t2 e2 heq
      simp only [Prod.mk.injEq, Except.error.injEq] at h
      exact h.2.2.symm ▸ policyQueries_error_shape clock tl _ _ _ _ _ _ _ _ _ heq
    · exact ih _ _ _ _ _ _ _ h

/-- A failing authority-rule pass only reports an ill-formed rule of block
0. -/
theorem authorityRules_error_shape (ts : SymbolTable) :
    ∀ (rs : List Rule) (st st' : EvalSt) (e : TokenError),
      authorityRules ts rs st = (st', some e) → e = .invalidBlockRule 0 := by
  intro rs
  induction rs with
  | nil => intro st st' e h; simp [authorityRules] at h
  | cons r rs ih =>
    intro st st' e h
    rcases hr : (Rule.convert_from r ts).convert st.symbols with ⟨s2, rd⟩
    simp only [authorityRules, hr] at h
    split at h
    · exact ih _ _ _ h
    · simp only [Prod.mk.injEq, Option.some.injEq] at h
      exact h.2.symm

/-- A failing block-rule pass only reports an ill-formed rule of that
block. -/
theorem blockRules_error_shape (ts : SymbolTable) (blockIdx : Nat) :
    ∀ (rs : List Rule) (st st' : EvalSt) (e : TokenError),
      blockRules ts blockIdx rs st = (st', some e) → e = .invalidBlockRule blockIdx := by
  intro rs
  induction rs with
  | nil => intro st st' e h; simp [blockRules] at h
  | cons r rs ih =>
    intro st st' e h
    simp only [blockRules] at h
    split at h
    · rcases hr : (Rule.convert_from r ts).convert st.symbols with ⟨s2, rd⟩
      rw [hr] at h
      exact ih _ _ _ h
    · simp only [Prod.mk.injEq, Option.some.injEq] at h
      exact h.2.symm

/-- A failing world run only reports a resource-limit error. -/
theorem runWorldDefault_error_shape (st st' : EvalSt) (e : TokenError)
    (h : runWorldDefault st = (st', some e)) : ∃ re, e = .runLimit re := by
  unfold runWorldDefault at h
  split at h
  · simp at h
  · rename_i re heq
    simp only [Prod.mk.injEq, Option.some.injEq] at h
    exact ⟨re, h.2.symm⟩

/-- A failing block pass only reports a resource limit or an ill-formed
rule. -/
theorem processBlocks_error_shape (clock : Nat → Nat) (tl : Nat) (ts : SymbolTable) :
    ∀ (bs : List Block) (k : Nat) (st st' : EvalSt) (t t' : Nat)
      (errs : List FailedCheck) (e : TokenError),
      processBlocks clock tl ts bs k st t errs = (st', t', .error e) →
        (∃ re, e = .runLimit re) ∨ (∃ b, e = .invalidBlockRule b) := by
  intro bs
  induction bs with
  | nil => intro k st st' t t' errs e h; simp [processBlocks] at h
  | cons b bs ih =>
    intro k st st' t t' errs e h
    simp only [processBlocks] at h
    split at h
    · rename_i st2 e2 heq
      simp only [Prod.mk.injEq, Except.error.injEq] at h
      exact Or.inr ⟨k, h.2.2.symm ▸ blockRules_error_shape ts k _ _ _ _ heq⟩
    · split at h
      · rename_i st3 e3 heq
        simp only [Prod.mk.injEq, Except.error.injEq] at h
        obtain ⟨re, hre⟩ := runWorldDefault_error_shape _ _ _ heq
        exact Or.inl ⟨re, h.2.2.symm ▸ hre⟩
      · split at h
        · rename_i st4 t4 e4 heq
          simp only [Prod.mk.injEq, Except.error.injEq] at h
          exact Or.inl ⟨.timeout,
            h.2.2.symm ▸ blockChecks_error_shape clock tl ts _ _ _ _ _ _ _ _ _ heq⟩
        · exact ih _ _ _ _ _ _ _ h

/-! ## The zero-policies behaviour of verify -/

/-- With zero policies, the decision of `verify_with_limits` is one of the
listed error forms — in particular it is never `Ok` and never `Deny`. -/
theorem verify_zero_policies_shape (v : Verifier) (clock : Nat → Nat)
    (limits : VerifierLimits) (hpol : v.policies = []) :
    (v.verify_with_limits clock limits).2 = .error .missingSymbols ∨
    (v.verify_with_limits clock limits).2 = .error .noMatchingPolicy ∨
    (v.verify_with_limits clock limits).2 = .error .panicked ∨
    (∃ re, (v.verify_with_limits clock limits).2 = .error (.runLimit re)) ∨
    (∃ b, (v.verify_with_limits clock limits).2 = .error (.invalidBlockRule b)) ∨
    (∃ E, (v.verify_with_limits clock limits).2 = .error (.failedChecks E)) := by
  unfold Verifier.verify_with_limits
  dsimp only
  split
  · exact Or.inl rfl
  · split
    · exact Or.inr (Or.inl rfl)
    · split
      · exact Or.inr (Or.inr (Or.inl rfl))
      · split
        · rename_i st2 e2 heq
          refine Or.inr (Or.inr (Or.inr (Or.inr (Or.inl ⟨0, ?_⟩))))
          rw [authorityRules_error_shape _ _ _ _ _ heq]
        · split
          · rename_i st3 e3 heq
            obtain ⟨re, hre⟩ := runWorldDefault_error_shape _ _ _ heq
            exact Or.inr (Or.inr (Or.inr (Or.inl ⟨re, by rw [hre]⟩)))
          · split
            · rename_i st4 t4 e4 heq
              refine Or.inr (Or.inr (Or.inr (Or.inl ⟨.timeout, ?_⟩)))
              rw [verifierChecks_error_shape clock _ _ _ _ _ _ _ _ _ heq]
            · split
              · rename_i st5 t5 e5 heq
                refine Or.inr (Or.inr (Or.inr (Or.inl ⟨.timeout, ?_⟩)))
                rw [blockChecks_error_shape clock _ _ _ _ _ _ _ _ _ _ _ heq]
              · split
                · rename_i st6 t6 e6 heq
                  refine Or.inr (Or.inr (Or.inr (Or.inl ⟨.timeout, ?_⟩)))
                  rw [policiesLoop_error_shape clock _ _ _ _ _ _ _ _ _ heq]
                · rename_i st6 t6 pres heqPol
                  split
                  · rename_i st7 t7 e7 heq
                    rcases processBlocks_error_shape clock _ _ _ _ _ _ _ _ _ _ heq with
                      ⟨re, hre⟩ | ⟨b, hb⟩
                    · exact Or.inr (Or.inr (Or.inr (Or.inl ⟨re, by rw [hre]⟩)))
                    · exact Or.inr (Or.inr (Or.inr (Or.inr (Or.inl ⟨b, by rw [hb]⟩))))
                  · rename_i st7 t7 errs7 heq
                    rw [hpol] at heqPol
                    simp only [policiesLoop, Prod.mk.injEq, Except.ok.injEq] at heqPol
                    split
                    · rw [← heqPol.2.2]
                      exact Or.inr (Or.inl rfl)
                    · exact Or.inr (Or.inr (Or.inr (Or.inr (Or.inr ⟨errs7, rfl⟩))))

/-! ## Interning only extends the symbol table -/

/-- Converting a set element only extends the table. -/
theorem Atom_convert_ext (a : builder.Atom) (s : SymbolTable) :
    (a.convert s).1.ExtensionOf s := by
  cases a <;> first | exact insert_ext _ _ | exact ext_refl _

/-- Converting set elements only extends the table. -/
theorem convertAtoms_ext (l : List builder.Atom) :
    ∀ (s : SymbolTable), (builder.convertAtoms l s).1.ExtensionOf s := by
  induction l with
  | nil => intro s; exact ext_refl s
  | cons a as_ ih =>
    intro s
    have h1 := Atom_convert_ext a s
    rcases ha : a.convert s with ⟨s1, a'⟩
    rw [ha] at h1
    have h2 := ih s1
    rcases hr : builder.convertAtoms as_ s1 with ⟨s2, as'⟩
    rw [hr] at h2
    simp only [builder.convertAtoms, ha, hr]
    exact ext_trans h2 h1

/-- Converting a term only extends the table. -/
theorem Term_convert_ext (t : builder.Term) (s : SymbolTable) :
    (t.convert s).1.ExtensionOf s := by
  cases t <;>
    first
      | exact insert_ext _ _
      | exact ext_refl _
      | (rename_i l
         have h := convertAtoms_ext l s
         rcases hl : builder.convertAtoms l s with ⟨s1, l'⟩
         rw [hl] at h
         simpa only [builder.Term.convert, hl] using h)

/-- Converting terms only extends the table. -/
theorem convertTerms_ext (l : List builder.Term) :
    ∀ (s : SymbolTable), (builder.convertTerms l s).1.ExtensionOf s := by
  induction l with
  | nil => intro s; exact ext_refl s
  | cons t ts ih =>
    intro s
    have h1 := Term_convert_ext t s
    rcases ht : t.convert s with ⟨s1, t'⟩
    rw [ht] at h1
    have h2 := ih s1
    rcases hr : builder.convertTerms ts s1 with ⟨s2, ts'⟩
    rw [hr] at h2
    simp only [builder.convertTerms, ht, hr]
    exact ext_trans h2 h1

/-- Converting a predicate only extends the table. -/
theorem Predicate_convert_ext (p : builder.Predicate) (s : SymbolTable) :
    (p.convert s).1.ExtensionOf s := by
  have h1 := insert_ext s p.name
  rcases hn : s.insert p.name with ⟨s1, n⟩
  rw [hn] at h1
  have h2 := convertTerms_ext p.ids s1
  rcases ht : builder.convertTerms p.ids s1 with ⟨s2, ids⟩
  rw [ht] at h2
  simp only [builder.Predicate.convert, hn, ht]
  exact ext_trans h2 h1

/-- Converting an opcode only extends the table. -/
theorem Op_convert_ext (o : builder.Op) (s : SymbolTable) :
    (o.convert s).1.ExtensionOf s := by
  cases o with
  | value t =>
    have h := Term_convert_ext t s
    rcases ht : t.convert s with ⟨s1, t'⟩
    rw [ht] at h
    simpa only [builder.Op.convert, ht] using h
  | unary k => exact ext_refl s
  | binary k => exact ext_refl s

/-- Converting opcodes only extends the table. -/
theorem convertOps_ext (l : List builder.Op) :
    ∀ (s : SymbolTable), (builder.convertOps l s).1.ExtensionOf s := by
  induction l with
  | nil => intro s; exact ext_refl s
  | cons o os ih =>
    intro s
    have h1 := Op_convert_ext o s
    rcases ho : o.convert s with ⟨s1, o'⟩
    rw [ho] at h1
    have h2 := ih s1
    rcases hr : builder.convertOps os s1 with ⟨s2, os'⟩
    rw [hr] at h2
    simp only [builder.convertOps, ho, hr]
    exact ext_trans h2 h1

/-- Converting an expression only extends the table. -/
theorem Expression_convert_ext (e : builder.Expression) (s : SymbolTable) :
    (e.convert s).1.ExtensionOf s := by
  have h := convertOps_ext e.ops s
  rcases ho : builder.convertOps e.ops s with ⟨s1, ops⟩
  rw [ho] at h
  simpa only [builder.Expression.convert, ho] using h

/-- Converting predicates only extends the table. -/
theorem convertPreds_ext (l : List builder.Predicate) :
    ∀ (s : SymbolTable), (builder.convertPreds l s).1.ExtensionOf s := by
  induction l with
  | nil => intro s; exact ext_refl s
  | cons p ps ih =>
    intro s
    have h1 := Predicate_convert_ext p s
    rcases hp : p.convert s with ⟨s1, p'⟩
    rw [hp] at h1
    have h2 := ih s1
    rcases hr : builder.convertPreds ps s1 with ⟨s2, ps'⟩
    rw [hr] at h2
    simp only [builder.convertPreds, hp, hr]
    exact ext_trans h2 h1

/-- Converting expressions only extends the table. -/
theorem convertExprs_ext (l : List builder.Expression) :
    ∀ (s : SymbolTable), (builder.convertExprs l s).1.ExtensionOf s := by
  induction l with
  | nil => intro s; exact ext_refl s
  | cons e es ih =>
    intro s
    have h1 := Expression_convert_ext e s
    rcases he : e.convert s with ⟨s1, e'⟩
    rw [he] at h1
    have h2 := ih s1
    rcases hr : builder.convertExprs es s1 with ⟨s2, es'⟩
    rw [hr] at h2
    simp only [builder.convertExprs, he, hr]
    exact ext_trans h2 h1

/-- Converting a rule only extends the table. -/
theorem Rule_convert_ext (r : builder.Rule) (s : SymbolTable) :
    (r.convert s).1.ExtensionOf s := by
  have h1 := Predicate_convert_ext r.head s
  rcases hh : r.head.convert s with ⟨s1, h'⟩
  rw [hh] at h1
  have h2 := convertPreds_ext r.body s1
  rcases hb : builder.convertPreds r.body s1 with ⟨s2, b'⟩
  rw [hb] at h2
  have h3 := convertExprs_ext r.expressions s2
  rcases he : builder.convertExprs r.expressions s2 with ⟨s3, e'⟩
  rw [he] at h3
  simp only [builder.Rule.convert, hh, hb, he]
  exact ext_trans (ext_trans h3 h2) h1

/-- Converting rules only extends the table. -/
theorem convertRules_ext (l : List builder.Rule) :
    ∀ (s : SymbolTable), (builder.convertRules l s).1.ExtensionOf s := by
  induction l with
  | nil => intro s; exact ext_refl s
  | cons r rs ih =>
    intro s
    have h1 := Rule_convert_ext r s
    rcases hr : r.convert s with ⟨s1, r'⟩
    rw [hr] at h1
    have h2 := ih s1
    rcases hs : builder.convertRules rs s1 with ⟨s2, rs'⟩
    rw [hs] at h2
    simp only [builder.convertRules, hr, hs]
    exact ext_trans h2 h1

/-- Converting a check only extends the table. -/
theorem Check_convert_ext (c : builder.Check) (s : SymbolTable) :
    (c.convert s).1.ExtensionOf s := by
  have h := convertRules_ext c.queries s
  rcases hq : builder.convertRules c.queries s with ⟨s1, qs⟩
  rw [hq] at h
  simpa only [builder.Check.convert, hq] using h

/-- Converting checks only extends the table. -/
theorem convertChecks_ext (l : List builder.Check) :
    ∀ (s : SymbolTable), (builder.convertChecks l s).1.ExtensionOf s := by
  induction l with
  | nil => intro s; exact ext_refl s
  | cons c cs ih =>
    intro s
    have h1 := Check_convert_ext c s
    rcases hc : c.convert s with ⟨s1, c'⟩
    rw [hc] at h1
    have h2 := ih s1
    rcases hs : builder.convertChecks cs s1 with ⟨s2, cs'⟩
    rw [hs] at h2
    simp only [builder.convertChecks, hc, hs]
    exact ext_trans h2 h1

/-! ## Every evaluation phase only extends the symbol table -/

/-- Fact ingestion only extends the table. -/
theorem ingestFacts_ext (ts : SymbolTable) (fs : List Fact) :
    ∀ (st : EvalSt), (ingestFacts ts fs st).symbols.ExtensionOf st.symbols := by
  induction fs with
  | nil => intro st; exact ext_refl _
  | cons f fs ih =>
    intro st
    have h1 := Predicate_convert_ext (Fact.convert_from f ts) st.symbols
    rcases hf : builder.Fact.convert (Fact.convert_from f ts) st.symbols with ⟨s1, fd⟩
    rw [builder.Fact.convert] at hf
    rw [hf] at h1
    simp only [ingestFacts, builder.Fact.convert, hf]
    exact ext_trans (ih _) h1

/-- Revocation fact insertion leaves the table unchanged. -/
theorem insertRevocationFacts_symbols (revSym : Nat) (ids : List (List Nat)) (st : EvalSt) :
    (insertRevocationFacts revSym ids st).symbols = st.symbols := rfl

/-- Authority rule processing only extends the table, also on the error
path. -/
theorem authorityRules_ext (ts : SymbolTable) (rs : List Rule) :
    ∀ (st : EvalSt), ((authorityRules ts rs st).1).symbols.ExtensionOf st.symbols := by
  induction rs with
  | nil => intro st; exact ext_refl _
  | cons r rs ih =>
    intro st
    have h1 := Rule_convert_ext (Rule.convert_from r ts) st.symbols
    rcases hr : (Rule.convert_from r ts).convert st.symbols with ⟨s1, rd⟩
    rw [hr] at h1
    simp only [authorityRules, hr]
    split
    · exact ext_trans (ih _) h1
    · exact h1

/-- Block rule processing only extends the table, also on the error path. -/
theorem blockRules_ext (ts : SymbolTable) (blockIdx : Nat) (rs : List Rule) :
    ∀ (st : EvalSt), ((blockRules ts blockIdx rs st).1).symbols.ExtensionOf st.symbols := by
  induction rs with
  | nil => intro st; exact ext_refl _
  | cons r rs ih =>
    intro st
    simp only [blockRules]
    split
    · have h1 := Rule_convert_ext (Rule.convert_from r ts) st.symbols
      rcases hr : (Rule.convert_from r ts).convert st.symbols with ⟨s1, rd⟩
      rw [hr] at h1
      exact ext_trans (ih _) h1
    · exact ext_refl _

/-- The world run leaves the table unchanged. -/
theorem runWorldDefault_symbols (st : EvalSt) :
    ((runWorldDefault st).1).symbols = st.symbols := by
  unfold runWorldDefault
  split <;> rfl

/-- The builder-query loop only extends the table, also on the timeout
path. -/
theorem queryLoopB_ext (clock : Nat → Nat) (tl : Nat) (qs : List builder.Rule) :
    ∀ (st : EvalSt) (t : Nat),
      ((queryLoopB clock tl qs st t).1).symbols.ExtensionOf st.symbols := by
  induction qs with
  | nil => intro st t; exact ext_refl _
  | cons q qs ih =>
    intro st t
    have h1 := Rule_convert_ext q st.symbols
    rcases hq : q.convert st.symbols with ⟨s1, qd⟩
    rw [hq] at h1
    simp only [queryLoopB, hq]
    split
    · exact h1
    · split
      · exact h1
      · exact ext_trans (ih _ _) h1

/-- The datalog-query loop leaves the table unchanged. -/
theorem queryLoopD_symbols (clock : Nat → Nat) (tl : Nat) (qs : List Rule) :
    ∀ (st : EvalSt) (t : Nat),
      ((queryLoopD clock tl qs st t).1).symbols = st.symbols := by
  induction qs with
  | nil => intro st t; rfl
  | cons q qs ih =>
    intro st t
    simp only [queryLoopD]
    split
    · rfl
    · split
      · rfl
      · exact ih _ _

/-- The verifier-check loop only extends the table. -/
theorem verifierChecks_ext (clock : Nat → Nat) (tl : Nat) (cs : List builder.Check) :
    ∀ (i : Nat) (st : EvalSt) (t : Nat) (errs : List FailedCheck),
      ((verifierChecks clock tl cs i st t errs).1).symbols.ExtensionOf st.symbols := by
  induction cs with
  | nil => intro i st t errs; exact ext_refl _
  | cons c cs ih =>
    intro i st t errs
    have h1 := Check_convert_ext c st.symbols
    rcases hc : c.convert st.symbols with ⟨s1, cd⟩
    rw [hc] at h1
    simp only [verifierChecks, hc]
    have h2 := queryLoopB_ext clock tl c.queries ⟨s1, st.facts, st.rules⟩ t
    split
    · rename_i st2 t2 e2 heq
      rw [heq] at h2
      exact ext_trans h2 h1
    · rename_i st2 t2 ok2 heq
      rw [heq] at h2
      exact ext_trans (ext_trans (ih _ _ _ _) h2) h1

/-- The block-check loop only extends the table. -/
theorem blockChecks_ext (clock : Nat → Nat) (tl : Nat) (ts : SymbolTable) (blockId : Nat)
    (cs : List Check) :
    ∀ (j : Nat) (st : EvalSt) (t : Nat) (errs : List FailedCheck),
      ((blockChecks clock tl ts blockId cs j st t errs).1).symbols.ExtensionOf st.symbols := by
  induction cs with
  | nil => intro j st t errs; exact ext_refl _
  | cons c cs ih =>
    intro j st t errs
    have h1 := Check_convert_ext (Check.convert_from c ts) st.symbols
    rcases hc : (Check.convert_from c ts).convert st.symbols with ⟨s1, cd⟩
    rw [hc] at h1
    dsimp only at h1
    simp only [blockChecks, hc]
    have h2 := queryLoopD_symbols clock tl cd.queries ⟨s1, st.facts, st.rules⟩ t
    split
    · rename_i st2 t2 e2 heq
      rw [heq] at h2
      dsimp only at h2
      rw [h2]
      exact h1
    · rename_i st2 t2 ok2 heq
      rw [heq] at h2
      dsimp only at h2
      refine ext_trans ?_ h1
      rw [← h2]
      exact ih _ _ _ _

/-- The policy-query loop only extends the table, also on the timeout
path. -/
theorem policyQueries_ext (clock : Nat → Nat) (tl : Nat) (kind : builder.PolicyKind)
    (i : Nat) (qs : List builder.Rule) :
    ∀ (st : EvalSt) (t : Nat) (pres : Option (Sum Nat Nat)),
      ((policyQueries clock tl kind i qs st t pres).1).symbols.ExtensionOf st.symbols := by
  induction qs with
  | nil => intro st t pres; exact ext_refl _
  | cons q qs ih =>
    intro st t pres
    have h1 := Rule_convert_ext q st.symbols
    rcases hq : q.convert st.symbols with ⟨s1, qd⟩
    rw [hq] at h1
    simp only [policyQueries, hq]
    split
    · exact h1
    · exact ext_trans (ih _ _ _) h1

/-- The policy loop only extends the table. -/
theorem policiesLoop_ext (clock : Nat → Nat) (tl : Nat) (ps : List builder.Policy) :
    ∀ (i : Nat) (st : EvalSt) (t : Nat) (pres : Option (Sum Nat Nat)),
      ((policiesLoop clock tl ps i st t pres).1).symbols.ExtensionOf st.symbols := by
  induction ps with
  | nil => intro i st t pres; exact ext_refl _
  | cons p ps ih =>
    intro i st t pres
    simp only [policiesLoop]
    have h1 := policyQueries_ext clock tl p.kind i p.queries st t pres
    split
    · rename_i st2 t2 e2 heq
      rw [heq] at h1
      exact h1
    · rename_i st2 t2 pres2 heq
      rw [heq] at h1
      exact ext_trans (ih _ _ _ _) h1

/-- The block loop only extends the table. -/
theorem processBlocks_ext (clock : Nat → Nat) (tl : Nat) (ts : SymbolTable)
    (bs : List Block) :
    ∀ (k : Nat) (st : EvalSt) (t : Nat) (errs : List FailedCheck),
      ((processBlocks clock tl ts bs k st t errs).1).symbols.ExtensionOf st.symbols := by
  induction bs with
  | nil => intro k st t errs; exact ext_refl _
  | cons b bs ih =>
    intro k st t errs
    simp only [processBlocks]
    have h0 := ingestFacts_ext ts b.facts st
    have h1 := blockRules_ext ts k b.rules (ingestFacts ts b.facts st)
    split
    · rename_i st2 e2 heq
      rw [heq] at h1
      exact ext_trans h1 h0
    · rename_i st2 heq
      rw [heq] at h1
      have h2 := runWorldDefault_symbols st2
      split
      · rename_i st3 e3 heq3
        rw [heq3] at h2
        exact ext_trans (h2 ▸ h1) h0
      · rename_i st3 heq3
        rw [heq3] at h2
        have h3 := blockChecks_ext clock tl ts (k + 1) b.checks 0 st3 t errs
        split
        · rename_i st4 t4 e4 heq4
          rw [heq4] at h3
          exact ext_trans (ext_trans h3 (h2 ▸ h1)) h0
        · rename_i st4 t4 errs4 heq4
          rw [heq4] at h3
          exact ext_trans (ext_trans (ext_trans (ih _ _ _ _) h3) (h2 ▸ h1)) h0

/-- Function `verify_with_limits` only extends the table, on every path. -/
theorem verify_with_limits_ext (v : Verifier) (clock : Nat → Nat)
    (limits : VerifierLimits) :
    ((v.verify_with_limits clock limits).1).symbols.ExtensionOf v.symbols := by
  unfold Verifier.verify_with_limits
  dsimp only
  split
  · exact ext_refl _
  · split
    · exact ext_refl _
    · rename_i token htok
      have h0 := ingestFacts_ext token.symbols token.authority.facts
        ⟨v.symbols, v.world_facts, v.world_rules⟩
      split
      · exact h0
      · rename_i revSym hrev
        have h1 := authorityRules_ext token.symbols token.authority.rules
          (insertRevocationFacts revSym token.revocation_ids
            (ingestFacts token.symbols token.authority.facts
              ⟨v.symbols, v.world_facts, v.world_rules⟩))
        split
        · rename_i st2 e2 heq
          rw [heq] at h1
          exact ext_trans h1 h0
        · rename_i st2 heq
          rw [heq] at h1
          have hx2 : st2.symbols.ExtensionOf v.symbols := ext_trans h1 h0
          have h2 := runWorldDefault_symbols st2
          split
          · rename_i st3 e3 heq3
            rw [heq3] at h2
            dsimp only at h2
            show st3.symbols.ExtensionOf v.symbols
            rw [h2]
            exact hx2
          · rename_i st3 heq3
            rw [heq3] at h2
            dsimp only at h2
            have hx3 : st3.symbols.ExtensionOf v.symbols := by rw [h2]; exact hx2
            have h3 := verifierChecks_ext clock (clock 0 + limits.max_time) v.checks 0 st3 1 []
            split
            · rename_i st4 t4 e4 heq4
              rw [heq4] at h3
              exact ext_trans h3 hx3
            · rename_i st4 t4 errs4 heq4
              rw [heq4] at h3
              have hx4 : st4.symbols.ExtensionOf v.symbols := ext_trans h3 hx3
              have h4 := blockChecks_ext clock (clock 0 + limits.max_time) token.symbols 0
                token.authority.checks 0 st4 t4 errs4
              split
              · rename_i st5 t5 e5 heq5
                rw [heq5] at h4
                exact ext_trans h4 hx4
              · rename_i st5 t5 errs5 heq5
                rw [heq5] at h4
                have hx5 : st5.symbols.ExtensionOf v.symbols := ext_trans h4 hx4
                have h5 := policiesLoop_ext clock (clock 0 + limits.max_time) v.policies 0
                  st5 t5 none
                split
                · rename_i st6 t6 e6 heq6
                  rw [heq6] at h5
                  exact ext_trans h5 hx5
                · rename_i st6 t6 pres6 heq6
                  rw [heq6] at h5
                  have hx6 : st6.symbols.ExtensionOf v.symbols := ext_trans h5 hx5
                  have h6 := processBlocks_ext clock (clock 0 + limits.max_time)
                    token.symbols token.blocks 0 st6 t6 errs5
                  split
                  · rename_i st7 t7 e7 heq7
                    rw [heq7] at h6
                    exact ext_trans h6 hx6
                  · rename_i st7 t7 errs7 heq7
                    rw [heq7] at h6
                    exact ext_trans h6 hx6

/-- Claim C9: the verifier's symbol table is append-only across every
public operation — after `add_fact`, `add_rule`, `add_check`, `add_policy`,
`add_resource`, `add_operation`, `set_time`, `query` (with any limits),
`verify` (with any limits and clock), `dump` and `save`, the table extends
the previous one by appending, so its length never decreases and every
pre-existing entry keeps its ID and string. -/
theorem c9_symbols_append_only (v : Verifier) (f : builder.Fact) (r : builder.Rule)
    (c : builder.Check) (p : builder.Policy) (res op : String) (now : Nat)
    (q : builder.Rule) (ql : VerifierLimits) (clock : Nat → Nat)
    (limits : VerifierLimits) :
    (v.add_fact f).symbols.ExtensionOf v.symbols ∧
    (v.add_rule r).symbols.ExtensionOf v.symbols ∧
    (v.add_check c).symbols.ExtensionOf v.symbols ∧
    (v.add_policy p).symbols.ExtensionOf v.symbols ∧
    (v.add_resource res).symbols.ExtensionOf v.symbols ∧
    (v.add_operation op).symbols.ExtensionOf v.symbols ∧
    (v.set_time now).symbols.ExtensionOf v.symbols ∧
    ((v.query_with_limits q ql).1).symbols.ExtensionOf v.symbols ∧
    ((v.verify_with_limits clock limits).1).symbols.ExtensionOf v.symbols ∧
    (v.dump.1).symbols.ExtensionOf v.symbols ∧
    (v.save.1).symbols.ExtensionOf v.symbols := by
  have addf : ∀ (g : builder.Fact), (v.add_fact g).symbols.ExtensionOf v.symbols := by
    intro g
    have h := Predicate_convert_ext g v.symbols
    rcases hf : builder.Fact.convert g v.symbols with ⟨s', fd⟩
    rw [builder.Fact.convert] at hf
    rw [hf] at h
    dsimp only at h
    simp only [Verifier.add_fact, builder.Fact.convert, hf]
    exact h
  refine ⟨addf f, ?_, ext_refl _, ext_refl _, addf _, addf _, addf _, ?_,
    verify_with_limits_ext v clock limits, ext_refl _, ext_refl _⟩
  · have h := Rule_convert_ext r v.symbols
    rcases hr : r.convert v.symbols with ⟨s', rd⟩
    rw [hr] at h
    dsimp only at h
    simp only [Verifier.add_rule, hr]
    exact h
  · unfold Verifier.query_with_limits
    split
    · exact ext_refl _
    · rename_i fs heq
      have h := Rule_convert_ext q v.symbols
      rcases hq : q.convert v.symbols with ⟨s', rd⟩
      rw [hq] at h
      dsimp only at h
      simp only [hq]
      exact h

/-! ## When no deadline is exceeded, the clocked phases compute their
clockless mirrors -/

/-- Under a clock that never reaches the deadline, the builder-query loop
computes `pureQueryLoopB`. -/
theorem queryLoopB_noTimeout (clock : Nat → Nat) (tl : Nat) (hH : ∀ k, clock k < tl)
    (qs : List builder.Rule) :
    ∀ (st : EvalSt) (t : Nat), ∃ t',
      queryLoopB clock tl qs st t =
        ((pureQueryLoopB qs st).1, t', .ok (pureQueryLoopB qs st).2) := by
  induction qs with
  | nil => intro st t; exact ⟨t, rfl⟩
  | cons q qs ih =>
    intro st t
    rcases hq : q.convert st.symbols with ⟨s1, qd⟩
    simp only [queryLoopB, pureQueryLoopB, hq]
    rw [if_neg (not_le.mpr (hH t))]
    by_cases hres : queryMatch { st with symbols := s1 }.facts qd = true
    · rw [if_pos hres, if_pos hres]
      exact ⟨t + 1, rfl⟩
    · rw [if_neg hres, if_neg hres]
      exact ih _ _

/-- Under a clock that never reaches the deadline, the datalog-query loop
computes `pureQueryLoopD`. -/
theorem queryLoopD_noTimeout (clock : Nat → Nat) (tl : Nat) (hH : ∀ k, clock k < tl)
    (qs : List Rule) :
    ∀ (st : EvalSt) (t : Nat), ∃ t',
      queryLoopD clock tl qs st t =
        ((pureQueryLoopD qs st).1, t', .ok (pureQueryLoopD qs st).2) := by
  induction qs with
  | nil => intro st t; exact ⟨t, rfl⟩
  | cons q qs ih =>
    intro st t
    simp only [queryLoopD, pureQueryLoopD]
    rw [if_neg (not_le.mpr (hH t))]
    by_cases hres : queryMatch st.facts q = true
    · rw [if_pos hres, if_pos hres]
      exact ⟨t + 1, rfl⟩
    · rw [if_neg hres, if_neg hres]
      exact ih _ _

/-- Under a clock that never reaches the deadline, the verifier-check loop
computes `pureVerifierChecks`. -/
theorem verifierChecks_noTimeout (clock : Nat → Nat) (tl : Nat) (hH : ∀ k, clock k < tl)
    (cs : List builder.Check) :
    ∀ (i : Nat) (st : EvalSt) (t : Nat) (errs : List FailedCheck), ∃ t',
      verifierChecks clock tl cs i st t errs =
        ((pureVerifierChecks cs i st errs).1, t', .ok (pureVerifierChecks cs i st errs).2) := by
  induction cs with
  | nil => intro i st t errs; exact ⟨t, rfl⟩
  | cons c cs ih =>
    intro i st t errs
    rcases hc : c.convert st.symbols with ⟨s1, cd⟩
    simp only [verifierChecks, pureVerifierChecks, hc]
    obtain ⟨t1, hq⟩ := queryLoopB_noTimeout clock tl hH c.queries ⟨s1, st.facts, st.rules⟩ t
    rcases hqp : pureQueryLoopB c.queries ⟨s1, st.facts, st.rules⟩ with ⟨st2, b⟩
    rw [hqp] at hq
    rw [hq]
    exact ih _ _ _ _

/-- Under a clock that never reaches the deadline, the block-check loop
computes `pureBlockChecks`. -/
theorem blockChecks_noTimeout (clock : Nat → Nat) (tl : Nat) (hH : ∀ k, clock k < tl)
    (ts : SymbolTable) (blockId : Nat) (cs : List Check) :
    ∀ (j : Nat) (st : EvalSt) (t : Nat) (errs : List FailedCheck), ∃ t',
      blockChecks clock tl ts blockId cs j st t errs =
        ((pureBlockChecks ts blockId cs j st errs).1, t',
          .ok (pureBlockChecks ts blockId cs j st errs).2) := by
  induction cs with
  | nil => intro j st t errs; exact ⟨t, rfl⟩
  | cons c cs ih =>
    intro j st t errs
    rcases hc : (Check.convert_from c ts).convert st.symbols with ⟨s1, cd⟩
    simp only [blockChecks, pureBlockChecks, hc]
    obtain ⟨t1, hq⟩ := queryLoopD_noTimeout clock tl hH cd.queries ⟨s1, st.facts, st.rules⟩ t
    rcases hqp : pureQueryLoopD cd.queries ⟨s1, st.facts, st.rules⟩ with ⟨st2, b⟩
    rw [hqp] at hq
    rw [hq]
    exact ih _ _ _ _

/-- Under a clock that never reaches the deadline, the policy-query loop
computes `purePolicyQueries`. -/
theorem policyQueries_noTimeout (clock : Nat → Nat) (tl : Nat) (hH : ∀ k, clock k < tl)
    (kind : builder.PolicyKind) (i : Nat) (qs : List builder.Rule) :
    ∀ (st : EvalSt) (t : Nat) (pres : Option (Sum Nat Nat)), ∃ t',
      policyQueries clock tl kind i qs st t pres =
        ((purePolicyQueries kind i qs st pres).1, t',
          .ok (purePolicyQueries kind i qs st pres).2) := by
  induction qs with
  | nil => intro st t pres; exact ⟨t, rfl⟩
  | cons q qs ih =>
    intro st t pres
    rcases hq : q.convert st.symbols with ⟨s1, qd⟩
    simp only [policyQueries, purePolicyQueries, hq]
    rw [if_neg (not_le.mpr (hH t))]
    by_cases hres : queryMatch { st with symbols := s1 }.facts qd = true
    · rw [if_pos hres, if_pos hres]
      cases kind <;> exact ih _ _ _
    · rw [if_neg hres, if_neg hres]
      exact ih _ _ _

/-- Under a clock that never reaches the deadline, the policy loop computes
`purePolicies`. -/
theorem policiesLoop_noTimeout (clock : Nat → Nat) (tl : Nat) (hH : ∀ k, clock k < tl)
    (ps : List builder.Policy) :
    ∀ (i : Nat) (st : EvalSt) (t : Nat) (pres : Option (Sum Nat Nat)), ∃ t',
      policiesLoop clock tl ps i st t pres =
        ((purePolicies ps i st pres).1, t', .ok (purePolicies ps i st pres).2) := by
  induction ps with
  | nil => intro i st t pres; exact ⟨t, rfl⟩
  | cons p ps ih =>
    intro i st t pres
    simp only [policiesLoop, purePolicies]
    obtain ⟨t1, hq⟩ := policyQueries_noTimeout clock tl hH p.kind i p.queries st t pres
    rcases hqp : purePolicyQueries p.kind i p.queries st pres with ⟨st2, pres2⟩
    rw [hqp] at hq
    rw [hq]
    exact ih _ _ _ _

/-- Under a clock that never reaches the deadline, the block loop computes
`pureProcessBlocks` (which may still abort on an ill-formed rule or a run
limit). -/
theorem processBlocks_noTimeout (clock : Nat → Nat) (tl : Nat) (hH : ∀ k, clock k < tl)
    (ts : SymbolTable) (bs : List Block) :
    ∀ (k : Nat) (st : EvalSt) (t : Nat) (errs : List FailedCheck), ∃ t',
      processBlocks clock tl ts bs k st t errs =
        ((pureProcessBlocks ts bs k st errs).1, t', (pureProcessBlocks ts bs k st errs).2) := by
  induction bs with
  | nil => intro k st t errs; exact ⟨t, rfl⟩
  | cons b bs ih =>
    intro k st t errs
    simp only [processBlocks, pureProcessBlocks]
    rcases hbr : blockRules ts k b.rules (ingestFacts ts b.facts st) with ⟨st2, oe⟩
    cases oe with
    | some e => exact ⟨t, rfl⟩
    | none =>
      dsimp only
      rcases hrw : runWorldDefault st2 with ⟨st3, oe2⟩
      cases oe2 with
      | some e => exact ⟨t, rfl⟩
      | none =>
        dsimp only
        obtain ⟨t1, hq⟩ := blockChecks_noTimeout clock tl hH ts (k + 1) b.checks 0 st3 t errs
        rcases hqp : pureBlockChecks ts (k + 1) b.checks 0 st3 errs with ⟨st4, errs2⟩
        rw [hqp] at hq
        rw [hq]
        exact ih _ _ _ _

/-! ## The master reduction of `verify_with_limits` -/

/-- With a token attached, the reserved symbols present, a successful
authority phase and a clock that never reaches the deadline, the decision
of `verify_with_limits` is exactly `pureOutcome` at the post-run state. -/
theorem verify_noTimeout_pureOutcome (v : Verifier) (token : Token) (clock : Nat → Nat)
    (limits : VerifierLimits) {revSym : Nat} {st3 st4 : EvalSt}
    (hTok : v.token = some token)
    (hAuth : (v.symbols.get "authority").isSome)
    (hAmb : (v.symbols.get "ambient").isSome)
    (hRev : (ingestFacts token.symbols token.authority.facts
        ⟨v.symbols, v.world_facts, v.world_rules⟩).symbols.get "revocation_id"
        = some revSym)
    (hAR : authorityRules token.symbols token.authority.rules
        (insertRevocationFacts revSym token.revocation_ids
          (ingestFacts token.symbols token.authority.facts
            ⟨v.symbols, v.world_facts, v.world_rules⟩)) = (st3, none))
    (hRun : runWorldDefault st3 = (st4, none))
    (hH : ∀ k, clock k < clock 0 + limits.max_time) :
    (v.verify_with_limits clock limits).2 = pureOutcome v token st4 := by
  obtain ⟨a, ha⟩ := Option.isSome_iff_exists.mp hAuth
  obtain ⟨b, hb⟩ := Option.isSome_iff_exists.mp hAmb
  unfold Verifier.verify_with_limits
  rw [hTok, ha, hb]
  dsimp only
  rw [hRev]
  dsimp only
  rw [hAR]
  dsimp only
  rw [hRun]
  dsimp only
  obtain ⟨t1, h1⟩ := verifierChecks_noTimeout clock (clock 0 + limits.max_time) hH
    v.checks 0 st4 1 []
  rcases hp1 : pureVerifierChecks v.checks 0 st4 [] with ⟨st5, errs1⟩
  rw [hp1] at h1
  rw [h1]
  dsimp only
  obtain ⟨t2, h2⟩ := blockChecks_noTimeout clock (clock 0 + limits.max_time) hH
    token.symbols 0 token.authority.checks 0 st5 t1 errs1
  rcases hp2 : pureBlockChecks token.symbols 0 token.authority.checks 0 st5 errs1 with
    ⟨st6, errs2⟩
  rw [hp2] at h2
  rw [h2]
  dsimp only
  obtain ⟨t3, h3⟩ := policiesLoop_noTimeout clock (clock 0 + limits.max_time) hH
    v.policies 0 st6 t2 none
  rcases hp3 : purePolicies v.policies 0 st6 none with ⟨st7, pres⟩
  rw [hp3] at h3
  rw [h3]
  dsimp only
  obtain ⟨t4, h4⟩ := processBlocks_noTimeout clock (clock 0 + limits.max_time) hH
    token.symbols token.blocks 0 st7 t3 errs2
  rcases hp4 : pureProcessBlocks token.symbols token.blocks 0 st7 errs2 with ⟨st8, out⟩
  rw [hp4] at h4
  rw [h4]
  unfold pureOutcome
  rw [hp1]
  dsimp only
  rw [hp2]
  dsimp only
  rw [hp3]
  dsimp only
  rw [hp4]
  cases out with
  | error e => rfl
  | ok errs3 => rfl

/-- Claim C6 (amended): with zero policies, verify never returns `Ok` and
never returns `Deny` on any path; with no token attached (and the reserved
symbols present) it returns `NoMatchingPolicy`; and with a token attached
and no abort (reserved symbols present, well-formed authority rules, the
runs succeed, no deadline reached), letting `errs3` be the accumulated list
of failing checks, it returns `NoMatchingPolicy` when `errs3` is empty (no
check failed) and `FailedChecks(errs3)` when it is not (some check
failed). -/
theorem c6_zero_policies_decision :
    (∀ (v : Verifier) (clock : Nat → Nat) (limits : VerifierLimits),
      v.policies = [] → ∀ i,
        (v.verify_with_limits clock limits).2 ≠ .ok i ∧
        (v.verify_with_limits clock limits).2 ≠ .error (.deny i)) ∧
    (∀ (v : Verifier) (clock : Nat → Nat) (limits : VerifierLimits),
      v.policies = [] → v.token = none →
      (v.symbols.get "authority").isSome →
      (v.symbols.get "ambient").isSome →
      (v.verify_with_limits clock limits).2 = .error .noMatchingPolicy) ∧
    (∀ (v : Verifier) (token : Token) (clock : Nat → Nat) (limits : VerifierLimits)
      {revSym : Nat} {st3 st4 st5 st6 st8 : EvalSt}
      {errs1 errs2 errs3 : List FailedCheck},
      v.policies = [] →
      v.token = some token →
      (v.symbols.get "authority").isSome →
      (v.symbols.get "ambient").isSome →
      (ingestFacts token.symbols token.authority.facts
        ⟨v.symbols, v.world_facts, v.world_rules⟩).symbols.get "revocation_id"
        = some revSym →
      authorityRules token.symbols token.authority.rules
        (insertRevocationFacts revSym token.revocation_ids
          (ingestFacts token.symbols token.authority.facts
            ⟨v.symbols, v.world_facts, v.world_rules⟩)) = (st3, none) →
      runWorldDefault st3 = (st4, none) →
      (∀ j, clock j < clock 0 + limits.max_time) →
      pureVerifierChecks v.checks 0 st4 [] = (st5, errs1) →
      pureBlockChecks token.symbols 0 token.authority.checks 0 st5 errs1
        = (st6, errs2) →
      pureProcessBlocks token.symbols token.blocks 0 st6 errs2 = (st8, .ok errs3) →
      ((errs3 = [] →
          (v.verify_with_limits clock limits).2 = .error .noMatchingPolicy) ∧
        (errs3 ≠ [] →
          (v.verify_with_limits clock limits).2 = .error (.failedChecks errs3)))) := by
  refine ⟨?_, ?_, ?_⟩
  · intro v clock limits hpol i
    rcases verify_zero_policies_shape v clock limits hpol with
      h | h | h | ⟨re, h⟩ | ⟨b, h⟩ | ⟨E, h⟩ <;> rw [h] <;> exact ⟨by simp, by simp⟩
  · intro v clock limits hpol htok hauth hamb
    obtain ⟨a, ha⟩ := Option.isSome_iff_exists.mp hauth
    obtain ⟨b, hb⟩ := Option.isSome_iff_exists.mp hamb
    unfold Verifier.verify_with_limits
    rw [htok, ha, hb]
    rfl
  · intro v token clock limits revSym st3 st4 st5 st6 st8 errs1 errs2 errs3
      hpol hTok hAuth hAmb hRev hAR hRun hH hp1 hp2 hblocks
    have hmain := verify_noTimeout_pureOutcome v token clock limits hTok hAuth hAmb
      hRev hAR hRun hH
    rw [hmain]
    unfold pureOutcome
    rw [hp1]
    dsimp only
    rw [hp2]
    dsimp only
    rw [hpol]
    simp only [purePolicies]
    rw [hblocks]
    dsimp only
    constructor
    · intro h3
      rw [h3]
      rfl
    · intro h3
      rw [if_neg]
      simp only [List.isEmpty_iff]
      exact h3

/-- Claim C6 witness: the amended statement at concrete zero-policy
verifiers — with the trivial token and no checks verify returns
`NoMatchingPolicy`; with one failing check it returns
`FailedChecks([Verifier{0}])` and returns neither `Ok(0)` nor `Deny(0)`;
and a token-less zero-policy verifier returns `NoMatchingPolicy`. -/
theorem c6_amended_witness :
    (v6empty.verify_with_limits clock0 limitsQuick).2 = .error .noMatchingPolicy ∧
    (v6.verify_with_limits clock0 limitsQuick).2
      = .error (.failedChecks [.verifier 0]) ∧
    (v6.verify_with_limits clock0 limitsQuick).2 ≠ .ok 0 ∧
    (v6.verify_with_limits clock0 limitsQuick).2 ≠ .error (.deny 0) ∧
    (Verifier.new.verify_with_limits clock0 limitsQuick).2
      = .error .noMatchingPolicy :=
  ⟨(c6_zero_policies_decision.2.2 v6empty tokenTrivial clock0 limitsQuick rfl rfl
      (by decide) (by decide) rfl rfl rfl (fun _ => Nat.zero_lt_one) rfl rfl rfl).1 rfl,
    (c6_zero_policies_decision.2.2 v6 tokenTrivial clock0 limitsQuick rfl rfl
      (by decide) (by decide) rfl rfl rfl (fun _ => Nat.zero_lt_one) rfl rfl rfl).2
      (by decide),
    (c6_zero_policies_decision.1 v6 clock0 limitsQuick rfl 0).1,
    (c6_zero_policies_decision.1 v6 clock0 limitsQuick rfl 0).2,
    c6_zero_policies_decision.2.1 Verifier.new clock0 limitsQuick rfl rfl
      (by decide) (by decide)⟩

/-! ## The check loops collect exactly the failing checks -/

/-- The verifier-check loop appends exactly one `Verifier` entry per
non-matching check, in order. -/
theorem pureVerifierChecks_eq (cs : List builder.Check) :
    ∀ (i : Nat) (st : EvalSt) (errs : List FailedCheck),
      pureVerifierChecks cs i st errs =
        ((checkResultsB cs st).1, errs ++ failuresB (checkResultsB cs st).2 i) := by
  induction cs with
  | nil => intro i st errs; simp [pureVerifierChecks, checkResultsB, failuresB]
  | cons c cs ih =>
    intro i st errs
    rcases hc : c.convert st.symbols with ⟨s1, cd⟩
    simp only [pureVerifierChecks, checkResultsB, hc]
    rcases hq : pureQueryLoopB c.queries ⟨s1, st.facts, st.rules⟩ with ⟨st2, b⟩
    dsimp only
    rw [ih]
    rcases hr : checkResultsB cs st2 with ⟨st3, bs⟩
    dsimp only
    simp only [failuresB]
    cases b <;> simp

/-- The block-check loop appends exactly one `Block` entry per non-matching
check, in order. -/
theorem pureBlockChecks_eq (ts : SymbolTable) (blockId : Nat) (cs : List Check) :
    ∀ (j : Nat) (st : EvalSt) (errs : List FailedCheck),
      pureBlockChecks ts blockId cs j st errs =
        ((checkResultsD ts cs st).1,
          errs ++ failuresBlock blockId (checkResultsD ts cs st).2 j) := by
  induction cs with
  | nil => intro j st errs; simp [pureBlockChecks, checkResultsD, failuresBlock]
  | cons c cs ih =>
    intro j st errs
    rcases hc : (Check.convert_from c ts).convert st.symbols with ⟨s1, cd⟩
    simp only [pureBlockChecks, checkResultsD, hc]
    rcases hq : pureQueryLoopD cd.queries ⟨s1, st.facts, st.rules⟩ with ⟨st2, b⟩
    dsimp only
    rw [ih]
    rcases hr : checkResultsD ts cs st2 with ⟨st3, bs⟩
    dsimp only
    simp only [failuresBlock]
    cases b <;> simp

/-! ## The policy loop keeps the last match -/

/-- One policy's query loop: the candidate is overwritten exactly when some
query matches. -/
theorem purePolicyQueries_eq (kind : builder.PolicyKind) (i : Nat)
    (qs : List builder.Rule) :
    ∀ (st : EvalSt) (pres : Option (Sum Nat Nat)),
      purePolicyQueries kind i qs st pres =
        ((policyAnyMatch qs st).1,
          if (policyAnyMatch qs st).2 then some (kindSum kind i) else pres) := by
  induction qs with
  | nil => intro st pres; simp [purePolicyQueries, policyAnyMatch]
  | cons q qs ih =>
    intro st pres
    rcases hq : q.convert st.symbols with ⟨s1, qd⟩
    simp only [purePolicyQueries, policyAnyMatch, hq]
    rw [ih]
    rcases ha : policyAnyMatch qs ⟨s1, st.facts, st.rules⟩ with ⟨st2, rest⟩
    dsimp only
    cases hqm : queryMatch st.facts qd <;> cases rest <;> simp

/-- The policy loop computes the last element of the matched-policy scan
(or keeps the incoming candidate when nothing matched). -/
theorem purePolicies_eq (ps : List builder.Policy) :
    ∀ (i : Nat) (st : EvalSt) (pres : Option (Sum Nat Nat)),
      purePolicies ps i st pres =
        ((policyScan ps i st).1,
          match (policyScan ps i st).2.getLast? with
          | some (j, k) => some (kindSum k j)
          | none => pres) := by
  induction ps with
  | nil => intro i st pres; simp [purePolicies, policyScan]
  | cons p ps ih =>
    intro i st pres
    simp only [purePolicies, policyScan]
    rw [purePolicyQueries_eq]
    rcases ha : policyAnyMatch p.queries st with ⟨st1, m⟩
    dsimp only
    rw [ih]
    rcases hs : policyScan ps (i + 1) st1 with ⟨st2, rest⟩
    dsimp only
    cases m with
    | false =>
      simp only [Bool.false_eq_true, if_false, List.nil_append]
    | true =>
      simp only [if_true, List.singleton_append]
      cases rest with
      | nil => simp
      | cons r rs =>
        simp only [List.getLast?_cons_cons]
        cases hgl : (r :: rs).getLast? with
        | none => simp at hgl
        | some x => rfl

/-! ## The block loop collects per-block failures -/

/-- The block loop's error list is the concatenation of each processed
block's failures, with block `k` (0-based) reported as `block_id` `k+1`. -/
theorem pureProcessBlocks_eq (ts : SymbolTable) (bs : List Block) :
    ∀ (k : Nat) (st : EvalSt) (errs : List FailedCheck),
      pureProcessBlocks ts bs k st errs =
        ((blockResultsPure ts bs k st).1,
          match (blockResultsPure ts bs k st).2 with
          | .ok rss => .ok (errs ++ blockFailures rss k)
          | .error e => .error e) := by
  induction bs with
  | nil => intro k st errs; simp [pureProcessBlocks, blockResultsPure, blockFailures]
  | cons b bs ih =>
    intro k st errs
    simp only [pureProcessBlocks, blockResultsPure]
    rcases hbr : blockRules ts k b.rules (ingestFacts ts b.facts st) with ⟨st2, oe⟩
    cases oe with
    | some e => rfl
    | none =>
      dsimp only
      rcases hrw : runWorldDefault st2 with ⟨st3, oe2⟩
      cases oe2 with
      | some e => rfl
      | none =>
        dsimp only
        rw [pureBlockChecks_eq]
        rcases hcr : checkResultsD ts b.checks st3 with ⟨st4, bools⟩
        dsimp only
        rw [ih]
        rcases hbrp : blockResultsPure ts bs (k + 1) st4 with ⟨st5, out⟩
        dsimp only
        cases out with
        | ok rss => simp [blockFailures, List.append_assoc]
        | error e => rfl

/-- Processing the concatenation of two block lists processes the first,
then the second with the block counter advanced. -/
theorem pureProcessBlocks_append (ts : SymbolTable) (l1 : List Block) :
    ∀ (l2 : List Block) (k : Nat) (st : EvalSt) (errs : List FailedCheck),
      pureProcessBlocks ts (l1 ++ l2) k st errs =
        (match pureProcessBlocks ts l1 k st errs with
          | (st', .ok errs') => pureProcessBlocks ts l2 (k + l1.length) st' errs'
          | (st', .error e) => (st', .error e)) := by
  induction l1 with
  | nil => intro l2 k st errs; simp [pureProcessBlocks]
  | cons b l1 ih =>
    intro l2 k st errs
    simp only [List.cons_append, pureProcessBlocks]
    rcases hbr : blockRules ts k b.rules (ingestFacts ts b.facts st) with ⟨st2, oe⟩
    cases oe with
    | some e => rfl
    | none =>
      dsimp only
      rcases hrw : runWorldDefault st2 with ⟨st3, oe2⟩
      cases oe2 with
      | some e => rfl
      | none =>
        dsimp only
        rcases hck : pureBlockChecks ts (k + 1) b.checks 0 st3 errs with ⟨st4, errs2⟩
        dsimp only
        have harith : k + (b :: l1).length = k + 1 + l1.length := by
          simp only [List.length_cons]
          omega
        rw [harith]
        exact ih l2 (k + 1) st4 errs2

/-! ## An ill-formed rule aborts with the block's 0-based identifier -/

/-- If some authority rule is ill-formed, the authority rule pass aborts
with `InvalidBlockRule(0, _)`. -/
theorem authorityRules_illformed (ts : SymbolTable) :
    ∀ (rs : List Rule) (st : EvalSt),
      (∃ r ∈ rs, (Rule.convert_from r ts).validate_variables = false) →
      ∃ st', authorityRules ts rs st = (st', some (.invalidBlockRule 0)) := by
  intro rs
  induction rs with
  | nil => intro st h; simp at h
  | cons r rs ih =>
    intro st h
    rcases hc : (Rule.convert_from r ts).convert st.symbols with ⟨s1, rd⟩
    simp only [authorityRules, hc]
    by_cases hv : (Rule.convert_from r ts).validate_variables = true
    · rw [if_pos hv]
      rcases h with ⟨r', hmem, hbad⟩
      rcases List.mem_cons.mp hmem with heq | hmem'
      · rw [heq] at hbad
        rw [hbad] at hv
        simp at hv
      · exact ih _ ⟨r', hmem', hbad⟩
    · rw [if_neg hv]
      exact ⟨_, rfl⟩

/-- If some rule of a block is ill-formed, the block rule pass aborts with
that block's 0-based identifier. -/
theorem blockRules_illformed (ts : SymbolTable) (blockIdx : Nat) :
    ∀ (rs : List Rule) (st : EvalSt),
      (∃ r ∈ rs, (Rule.convert_from r ts).validate_variables = false) →
      ∃ st', blockRules ts blockIdx rs st = (st', some (.invalidBlockRule blockIdx)) := by
  intro rs
  induction rs with
  | nil => intro st h; simp at h
  | cons r rs ih =>
    intro st h
    simp only [blockRules]
    by_cases hv : (Rule.convert_from r ts).validate_variables = true
    · rw [if_pos hv]
      rcases h with ⟨r', hmem, hbad⟩
      rcases List.mem_cons.mp hmem with heq | hmem'
      · rw [heq] at hbad
        rw [hbad] at hv
        simp at hv
      · rcases hc : (Rule.convert_from r ts).convert st.symbols with ⟨s1, rd⟩
        dsimp only
        exact ih _ ⟨r', hmem', hbad⟩
    · rw [if_neg hv]
      exact ⟨_, rfl⟩

/-- Claim C4: policies are scanned in order and the candidate verdict is
overwritten on every matching query across all policies without breaking,
so — when no check failed and no abort occurred — the decision is
determined by the last policy that had a matching query: `Ok(i)` when it is
an allow policy, `Deny(i)` when it is a deny policy, and
`NoMatchingPolicy` when no policy matched. -/
theorem c4_last_matching_policy_wins (v : Verifier) (token : Token) (clock : Nat → Nat)
    (limits : VerifierLimits) {revSym : Nat} {st3 st4 st5 st6 st7 st8 : EvalSt}
    {errs1 errs2 errs3 : List FailedCheck} {scan : List (Nat × builder.PolicyKind)}
    (hTok : v.token = some token)
    (hAuth : (v.symbols.get "authority").isSome)
    (hAmb : (v.symbols.get "ambient").isSome)
    (hRev : (ingestFacts token.symbols token.authority.facts
        ⟨v.symbols, v.world_facts, v.world_rules⟩).symbols.get "revocation_id"
        = some revSym)
    (hAR : authorityRules token.symbols token.authority.rules
        (insertRevocationFacts revSym token.revocation_ids
          (ingestFacts token.symbols token.authority.facts
            ⟨v.symbols, v.world_facts, v.world_rules⟩)) = (st3, none))
    (hRun : runWorldDefault st3 = (st4, none))
    (hH : ∀ k, clock k < clock 0 + limits.max_time)
    (hp1 : pureVerifierChecks v.checks 0 st4 [] = (st5, errs1))
    (hp2 : pureBlockChecks token.symbols 0 token.authority.checks 0 st5 errs1
      = (st6, errs2))
    (hscan : policyScan v.policies 0 st6 = (st7, scan))
    (hblocks : pureProcessBlocks token.symbols token.blocks 0 st7 errs2
      = (st8, .ok errs3))
    (hnofail : errs3 = []) :
    (v.verify_with_limits clock limits).2 =
      match scan.getLast? with
      | some (j, builder.PolicyKind.allow) => .ok j
      | some (j, builder.PolicyKind.deny) => .error (.deny j)
      | none => .error .noMatchingPolicy := by
  rw [verify_noTimeout_pureOutcome v token clock limits hTok hAuth hAmb hRev hAR hRun hH]
  unfold pureOutcome
  rw [hp1]
  dsimp only
  rw [hp2]
  dsimp only
  rw [purePolicies_eq, hscan]
  dsimp only
  rw [hblocks]
  dsimp only
  rw [hnofail]
  simp only [List.isEmpty_nil, if_true]
  rcases hgl : scan.getLast? with _ | ⟨j, k⟩
  · rfl
  · cases k <;> rfl

/-- Claim C4 witness: with the policies `deny if true` then `allow if true`
(both match every world), the later allow policy wins and verify returns
`Ok(1)`. -/
theorem c4_witness : (v4w.verify_with_limits clock0 limitsQuick).2 = .ok 1 :=
  c4_last_matching_policy_wins v4w tokenTrivial clock0 limitsQuick rfl (by decide)
    (by decide) rfl rfl rfl (fun _ => Nat.zero_lt_one) rfl rfl rfl rfl rfl

/-- Claim C7: with a token attached and no abort, every verifier check,
authority check and attenuating-block check is evaluated — no
short-circuiting — and when any fails, verify returns `FailedChecks`
listing exactly the failing checks in evaluation order: `Verifier(i)` for
the i-th verifier check, `Block(0, j)` for the j-th authority check, and
`Block(k+1, j)` for the j-th check of the k-th attenuating block (0-based),
so attenuating block i counting from 1 is reported as `block_id` i. -/
theorem c7_failed_checks_exactly (v : Verifier) (token : Token) (clock : Nat → Nat)
    (limits : VerifierLimits) {revSym : Nat} {st3 st4 st5 st6 st7 st8 : EvalSt}
    {vbools abools : List Bool} {pres : Option (Sum Nat Nat)} {rss : List (List Bool)}
    (hTok : v.token = some token)
    (hAuth : (v.symbols.get "authority").isSome)
    (hAmb : (v.symbols.get "ambient").isSome)
    (hRev : (ingestFacts token.symbols token.authority.facts
        ⟨v.symbols, v.world_facts, v.world_rules⟩).symbols.get "revocation_id"
        = some revSym)
    (hAR : authorityRules token.symbols token.authority.rules
        (insertRevocationFacts revSym token.revocation_ids
          (ingestFacts token.symbols token.authority.facts
            ⟨v.symbols, v.world_facts, v.world_rules⟩)) = (st3, none))
    (hRun : runWorldDefault st3 = (st4, none))
    (hH : ∀ k, clock k < clock 0 + limits.max_time)
    (hv : checkResultsB v.checks st4 = (st5, vbools))
    (hac : checkResultsD token.symbols token.authority.checks st5 = (st6, abools))
    (hp : purePolicies v.policies 0 st6 none = (st7, pres))
    (hb : blockResultsPure token.symbols token.blocks 0 st7 = (st8, .ok rss))
    (hne : failuresB vbools 0 ++ (failuresBlock 0 abools 0 ++ blockFailures rss 0) ≠ []) :
    (v.verify_with_limits clock limits).2 =
      .error (.failedChecks
        (failuresB vbools 0 ++ (failuresBlock 0 abools 0 ++ blockFailures rss 0))) := by
  rw [verify_noTimeout_pureOutcome v token clock limits hTok hAuth hAmb hRev hAR hRun hH]
  unfold pureOutcome
  rw [pureVerifierChecks_eq, hv]
  dsimp only
  rw [pureBlockChecks_eq, hac]
  dsimp only
  rw [hp]
  dsimp only
  rw [pureProcessBlocks_eq, hb]
  dsimp only
  simp only [List.nil_append, List.append_assoc]
  rw [if_neg]
  simp only [List.isEmpty_iff]
  exact hne

/-- Claim C7 witness: one failing verifier check, one failing authority
check and one failing check in the sole attenuating block are all reported,
in order, with `block_id` 0 for the authority block and 1 for the first
attenuating block. -/
theorem c7_witness :
    (v7w.verify_with_limits clock0 limitsQuick).2 =
      .error (.failedChecks [.verifier 0, .block 0 0, .block 1 0]) :=
  c7_failed_checks_exactly v7w token7 clock0 limitsQuick rfl (by decide) (by decide)
    rfl rfl rfl (fun _ => Nat.zero_lt_one) rfl rfl rfl rfl (by decide)

/-- Claim C8 (amended): an ill-formed rule aborts verify immediately with
`InvalidBlockRule` carrying the offending block's 0-based position: 0 for
the authority block, and k for the k-th attenuating block counting from 0 —
so the first attenuating block shares identifier 0 with the authority block
rather than getting a distinct value. -/
theorem c8_invalid_rule_zero_based_ids :
    (∀ (v : Verifier) (token : Token) (clock : Nat → Nat) (limits : VerifierLimits)
      {revSym : Nat},
      v.token = some token →
      (v.symbols.get "authority").isSome →
      (v.symbols.get "ambient").isSome →
      (ingestFacts token.symbols token.authority.facts
        ⟨v.symbols, v.world_facts, v.world_rules⟩).symbols.get "revocation_id"
        = some revSym →
      (∃ r ∈ token.authority.rules,
        (Rule.convert_from r token.symbols).validate_variables = false) →
      (v.verify_with_limits clock limits).2 = .error (.invalidBlockRule 0)) ∧
    (∀ (v : Verifier) (token : Token) (clock : Nat → Nat) (limits : VerifierLimits)
      (k : Nat) {revSym : Nat} {st3 st4 st5 st6 st7 stK : EvalSt}
      {errs1 errs2 errsK : List FailedCheck} {pres : Option (Sum Nat Nat)},
      v.token = some token →
      (v.symbols.get "authority").isSome →
      (v.symbols.get "ambient").isSome →
      (ingestFacts token.symbols token.authority.facts
        ⟨v.symbols, v.world_facts, v.world_rules⟩).symbols.get "revocation_id"
        = some revSym →
      authorityRules token.symbols token.authority.rules
        (insertRevocationFacts revSym token.revocation_ids
          (ingestFacts token.symbols token.authority.facts
            ⟨v.symbols, v.world_facts, v.world_rules⟩)) = (st3, none) →
      runWorldDefault st3 = (st4, none) →
      (∀ j, clock j < clock 0 + limits.max_time) →
      pureVerifierChecks v.checks 0 st4 [] = (st5, errs1) →
      pureBlockChecks token.symbols 0 token.authority.checks 0 st5 errs1
        = (st6, errs2) →
      purePolicies v.policies 0 st6 none = (st7, pres) →
      pureProcessBlocks token.symbols (token.blocks.take k) 0 st7 errs2
        = (stK, .ok errsK) →
      ∀ (hk : k < token.blocks.length),
      (∃ r ∈ (token.blocks.get ⟨k, hk⟩).rules,
        (Rule.convert_from r token.symbols).validate_variables = false) →
      (v.verify_with_limits clock limits).2 = .error (.invalidBlockRule k)) := by
  constructor
  · intro v token clock limits revSym hTok hAuth hAmb hRev hbad
    obtain ⟨a, ha⟩ := Option.isSome_iff_exists.mp hAuth
    obtain ⟨b2, hb2⟩ := Option.isSome_iff_exists.mp hAmb
    unfold Verifier.verify_with_limits
    rw [hTok, ha, hb2]
    dsimp only
    rw [hRev]
    dsimp only
    obtain ⟨st', hst⟩ := authorityRules_illformed token.symbols token.authority.rules _ hbad
    rw [hst]
    rfl
  · intro v token clock limits k revSym st3 st4 st5 st6 st7 stK errs1 errs2 errsK pres
      hTok hAuth hAmb hRev hAR hRun hH hp1 hp2 hp3 hpre hk hbad
    rw [verify_noTimeout_pureOutcome v token clock limits hTok hAuth hAmb hRev hAR hRun hH]
    unfold pureOutcome
    rw [hp1]
    dsimp only
    rw [hp2]
    dsimp only
    rw [hp3]
    dsimp only
    have hsplit : token.blocks = token.blocks.take k ++ token.blocks.drop k :=
      (List.take_append_drop k token.blocks).symm
    rw [hsplit, pureProcessBlocks_append, hpre]
    dsimp only
    have hlen : (token.blocks.take k).length = k := by
      rw [List.length_take]
      omega
    rw [hlen, Nat.zero_add]
    have hdrop : token.blocks.drop k
        = token.blocks.get ⟨k, hk⟩ :: token.blocks.drop (k + 1) := by
      rw [List.get_eq_getElem]
      exact List.drop_eq_getElem_cons hk
    rw [hdrop]
    simp only [pureProcessBlocks]
    obtain ⟨st', hst⟩ := blockRules_illformed token.symbols k
      (token.blocks.get ⟨k, hk⟩).rules
      (ingestFacts token.symbols (token.blocks.get ⟨k, hk⟩).facts stK) hbad
    rw [hst]

/-- Claim C8 witness: an ill-formed authority rule yields
`InvalidBlockRule(0, _)`, and an ill-formed rule in the second attenuating
block (0-based index 1) yields `InvalidBlockRule(1, _)`. -/
theorem c8_amended_witness :
    ((Verifier.from_token token8a).verify_with_limits clock0 limitsQuick).2
      = .error (.invalidBlockRule 0) ∧
    ((Verifier.from_token token8c).verify_with_limits clock0 limitsQuick).2
      = .error (.invalidBlockRule 1) :=
  ⟨c8_invalid_rule_zero_based_ids.1 (Verifier.from_token token8a) token8a clock0
      limitsQuick rfl (by decide) (by decide) rfl ⟨badRule8, by decide, by decide⟩,
    c8_invalid_rule_zero_based_ids.2 (Verifier.from_token token8c) token8c clock0
      limitsQuick 1 rfl (by decide) (by decide) rfl rfl rfl (fun _ => Nat.zero_lt_one)
      rfl rfl rfl rfl (by decide) ⟨badRule8, by decide, by decide⟩⟩

end Biscuit
